import Mathlib

/-!
# Verification of the nerfstudio data-loading slice

Shallow embedding of the split-selection / pose-normalization logic of
`nerfstudio/data/dataparsers/nerfstudio_dataparser.py`, of the helper
functions in `nerfstudio/scripts/my_utils.py`, and of the evaluation driver
`nerfstudio/scripts/eval.py` of the `ciglenecki/nerfstudio` repository.

Modelling conventions:
* Python `str` and `pathlib.Path` values are modelled as `List Char`
  (named `Str` below); `Path` joining inserts a single slash.
* Python `float` values appearing in the parser are modelled as exact
  rationals (`ℚ`).  Every float computation a claim depends on
  (`max_res / 2 ** df`, scale factors) is either exact in IEEE double
  precision (division by a power of two) or is treated at the level of
  real-number semantics, which is the reading of the specification.
* The filesystem is an explicit record `Fs` of pure functions
  (file-existence test, image-size probe, contents of the indices file).
* Fallible Python code (assert, raised exceptions, unbound locals) is
  modelled with `Except PErr`.
* Collaborator functions living outside the given source slice
  (`camera_utils.auto_orient_and_center_poses`) are taken as parameters of
  the embedding and universally quantified in the theorems.
-/

/-- Python strings / paths, modelled as lists of characters. -/
abbrev Str := List Char

/-- The characters of a Lean string literal, used to write `Str` constants. -/
def str (s : String) : Str := s.data

/-- `pathlib` path joining: `Path(a, b)` and `a / b` insert one slash. -/
def pathJoin (a b : Str) : Str := a ++ ('/' :: b)

/-- The components of a path, splitting on slashes (`Path.parts`). -/
def pathParts (s : Str) : List Str := s.splitOn '/'

/-- `Path.name`: the final path component. -/
def pathName (s : Str) : Str := (pathParts s).getLastD []

/-- `Path(*filepath.parts[-2:])`: the path rebuilt from its last two
components (the frame loop of `_generate_dataparser_outputs` truncates every
`file_path` this way). -/
def lastTwoParts (s : Str) : Str :=
  let ps := pathParts s
  List.intercalate (str "/") (ps.drop (ps.length - 2))

/-- `Path.parent` rendered as a string: all components but the last. -/
def pathParent (s : Str) : Str :=
  List.intercalate (str "/") ((pathParts s).dropLast)

/-- `Path.stem`: the final component without its last extension. -/
def pathStem (s : Str) : Str :=
  let nm := pathName s
  let ps := nm.splitOn '.'
  if ps.length ≤ 1 then nm else List.intercalate (str ".") (ps.dropLast)

/-- Decimal rendering of a natural number as a `Str` (used for the
`images_{2**k}` directory names and f-strings). -/
def natStr (n : ℕ) : Str := (toString n).data

/-- `MAX_AUTO_RESOLUTION` (nerfstudio_dataparser.py line 40). -/
def MAX_AUTO_RESOLUTION : ℕ := 1600

/-- The filesystem and external-file environment of one parser run: pure
views of `Path.exists`, `PIL.Image.open(...).size`, and the JSON contents of
the configured indices file (`none` when `indices_file_path.is_file()` is
false).  The indices JSON is a string-to-string mapping, modelled as the
association list of its items in iteration order. -/
structure Fs where
  fileExists : Str → Bool
  imageSize : Str → ℕ × ℕ
  indicesContent : Str → Option (List (Str × Str))

/-- One probe step of the `while True` loop of `_get_fname`: stop at `df`
when the probe image's max dimension divided by `2 ** df` is strictly below
`MAX_AUTO_RESOLUTION` (exact: `maxRes < 1600 * 2 ** df`, since float
division by a power of two is exact), or when the next downscale directory
`{pfx}{2**(df+1)}` does not contain the file. -/
def probeStop (fs : Fs) (dataDir pfx nm : Str) (maxRes df : ℕ) : Prop :=
  maxRes < MAX_AUTO_RESOLUTION * 2 ^ df ∨
    ¬ fs.fileExists (pathJoin dataDir (pathJoin (pfx ++ natStr (2 ^ (df + 1))) nm)) = true

instance (fs : Fs) (dataDir pfx nm : Str) (maxRes df : ℕ) :
    Decidable (probeStop fs dataDir pfx nm maxRes df) := by
  unfold probeStop; infer_instance

/-- The `while True` probe loop of `_get_fname`, written with explicit fuel:
`none` models non-termination within the given fuel. -/
def probeAux (fs : Fs) (dataDir pfx nm : Str) (maxRes : ℕ) : ℕ → ℕ → Option ℕ
  | _, 0 => none
  | df, fuel + 1 =>
    if maxRes < MAX_AUTO_RESOLUTION * 2 ^ df then some df
    else if ¬ fs.fileExists (pathJoin dataDir (pathJoin (pfx ++ natStr (2 ^ (df + 1))) nm)) = true
      then some df
    else probeAux fs dataDir pfx nm maxRes (df + 1) fuel

/-- The first branch of `probeStop` always holds eventually, so the loop has
a well-defined stopping index. -/
theorem probeStop_exists (fs : Fs) (dataDir pfx nm : Str) (maxRes : ℕ) :
    ∃ df, probeStop fs dataDir pfx nm maxRes df := by
  refine ⟨maxRes, Or.inl ?_⟩
  calc maxRes < maxRes + 1 := Nat.lt_succ_self maxRes
    _ ≤ 2 ^ maxRes := Nat.succ_le_of_lt (Nat.lt_two_pow maxRes)
    _ ≤ MAX_AUTO_RESOLUTION * 2 ^ maxRes := by
        have h2 : 1 ≤ 2 ^ maxRes := Nat.one_le_two_pow
        have : 1 * 2 ^ maxRes ≤ MAX_AUTO_RESOLUTION * 2 ^ maxRes :=
          Nat.mul_le_mul_right _ (by norm_num [MAX_AUTO_RESOLUTION])
        simpa using this

/-- The stopping index of the probe loop: the least `df` satisfying
`probeStop`. -/
def probeDf (fs : Fs) (dataDir pfx nm : Str) (maxRes : ℕ) : ℕ :=
  Nat.find (probeStop_exists fs dataDir pfx nm maxRes)

/-- `_get_fname` (nerfstudio_dataparser.py lines 389-418).  `state` is the
mutable attribute `self.downscale_factor` (`none` before the first call);
the result pairs the updated attribute with the returned path.
`cfgDownscale` is `self.config.downscale_factor`. -/
def getFname (fs : Fs) (cfgDownscale : Option ℕ) (state : Option ℕ)
    (dataDir filepath : Str) (pfx : Str) : Option ℕ × Str :=
  let st : ℕ :=
    match state with
    | some d => d
    | none =>
      match cfgDownscale with
      | some d => d
      | none =>
        let sz := fs.imageSize (pathJoin dataDir filepath)
        let maxRes := max sz.1 sz.2
        2 ^ probeDf fs dataDir pfx (pathName filepath) maxRes
  if 1 < st then
    (some st, pathJoin dataDir (pathJoin (pfx ++ natStr st) (pathName filepath)))
  else (some st, pathJoin dataDir filepath)

/-- 4x4 (or 3x4) matrices of exact rationals, as nested lists: the shape in
which `transform_matrix` arrives from the JSON manifest. -/
abbrev Mat4 := List (List ℚ)

/-- Matrix entry access with numpy-style semantics for the shapes that occur
(all matrices in play are rectangular; out-of-range reads never happen on
the shapes the parser builds and default to `0`). -/
def mget (m : Mat4) (i j : ℕ) : ℚ := (((m.get? i).getD []).get? j).getD 0

/-- 4x4 matrix product (`transform_matrix @ ...`, lines 366-370). -/
def matMul (a b : Mat4) : Mat4 :=
  (List.range 4).map fun i => (List.range 4).map fun j =>
    ((List.range 4).map fun k => mget a i k * mget b k j).sum

/-- The result of `camera_utils.get_distortion_params(k1, k2, k3, k4, p1, p2)`:
a collaborator outside the given sources, modelled as the record of its six
arguments. -/
structure DistortionParams where
  k1 : ℚ
  k2 : ℚ
  k3 : ℚ
  k4 : ℚ
  p1 : ℚ
  p2 : ℚ
deriving DecidableEq, Repr

/-- One entry of the manifest's `frames` list.  Optional fields are `none`
when the corresponding JSON key is absent from the frame. -/
structure Frame where
  filePath : Str
  transformMatrix : Mat4
  flX : Option ℚ := none
  flY : Option ℚ := none
  cX : Option ℚ := none
  cY : Option ℚ := none
  h : Option ℤ := none
  w : Option ℤ := none
  k1 : Option ℚ := none
  k2 : Option ℚ := none
  k3 : Option ℚ := none
  k4 : Option ℚ := none
  p1 : Option ℚ := none
  p2 : Option ℚ := none
  maskPath : Option Str := none
  depthFilePath : Option Str := none
deriving DecidableEq

/-- The manifest (`transforms.json`).  Optional fields are `none` when the
key is absent at top level.  Keys the verified claims never consult
(`camera_model`, `ply_file_path`, ...) are omitted. -/
structure Meta where
  frames : List Frame
  flX : Option ℚ := none
  flY : Option ℚ := none
  cX : Option ℚ := none
  cY : Option ℚ := none
  h : Option ℤ := none
  w : Option ℤ := none
  k1 : Option ℚ := none
  k2 : Option ℚ := none
  k3 : Option ℚ := none
  k4 : Option ℚ := none
  p1 : Option ℚ := none
  p2 : Option ℚ := none
  trainFilenames : Option (List Str) := none
  valFilenames : Option (List Str) := none
  testFilenames : Option (List Str) := none
  allFilenames : Option (List Str) := none
  orientationOverride : Option Str := none
  appliedTransform : Option Mat4 := none
  appliedScale : Option ℚ := none
deriving DecidableEq

/-- Lookup of the manifest key `f"SPLIT_filenames"` for a split string. -/
def Meta.splitFilenames (meta : Meta) (split : Str) : Option (List Str) :=
  if split = str "train" then meta.trainFilenames
  else if split = str "val" then meta.valFilenames
  else if split = str "test" then meta.testFilenames
  else if split = str "all" then meta.allFilenames
  else none

/-- `NerfstudioDataParserConfig` restricted to the fields the parser reads.
`indicesFile` carries the configured `indices_file` path. -/
structure Config where
  scaleFactor : ℚ := 1
  downscaleFactor : Option ℕ := none
  sceneScale : ℚ := 1
  orientationMethod : Str := str "up"
  centerMethod : Str := str "poses"
  autoScalePoses : Bool := true
  trainSplitFraction : ℚ := 9 / 10
  indicesFile : Option Str := none

/-- The distinct raise/assert sites of the modelled Python code. -/
inductive PErr where
  | fileNotFound
  | unboundLocal
  | assertIntrinsic
  | assertMaskLen
  | assertDepthLen
  | assertSplitName
  | valueErrorIndex
  | runtimeUnmatched
  | runtimeMissingSplit
  | valueErrorNegSamples
  | assertEvalCount
  | valueErrorSplit
  | assertEmptyIndices
  | zeroDivision
  | assertDownscale
deriving DecidableEq, Repr

/-- The parallel lists the frame loop of `_generate_dataparser_outputs`
accumulates (lines 104-126). -/
structure Collected where
  imageFilenames : List Str := []
  maskFilenames : List Str := []
  depthFilenames : List Str := []
  poses : List Mat4 := []
  fx : List ℚ := []
  fy : List ℚ := []
  cx : List ℚ := []
  cy : List ℚ := []
  height : List ℤ := []
  width : List ℤ := []
  dist : List DistortionParams := []
deriving DecidableEq

/-- `distort_fixed` (lines 115-119): any of `k1 k2 k3 p1 p2` at manifest top
level (`k4` is not consulted). -/
def distortFixed (meta : Meta) : Bool :=
  meta.k1.isSome || meta.k2.isSome || meta.k3.isSome || meta.p1.isSome || meta.p2.isSome

/-- The per-frame distortion parameters (lines 161-171): each missing key
defaults to `0.0`. -/
def Frame.distortionParams (f : Frame) : DistortionParams :=
  { k1 := f.k1.getD 0, k2 := f.k2.getD 0, k3 := f.k3.getD 0,
    k4 := f.k4.getD 0, p1 := f.p1.getD 0, p2 := f.p2.getD 0 }

/-- The manifest-level distortion parameters (lines 339-347): each missing
key defaults to `0.0`. -/
def metaDistortion (meta : Meta) : DistortionParams :=
  { k1 := meta.k1.getD 0, k2 := meta.k2.getD 0, k3 := meta.k3.getD 0,
    k4 := meta.k4.getD 0, p1 := meta.p1.getD 0, p2 := meta.p2.getD 0 }

/-- The indices-file frame filter (lines 137-141): a frame is filtered out
when `str(Path("images", fname.name))` is not a key of the indices JSON or
maps to `"ignore"`. -/
def frameFiltered (indicesMap : Option (List (Str × Str))) (fname : Str) : Bool :=
  match indicesMap with
  | none => false
  | some ij =>
    match ij.lookup (pathJoin (str "images") (pathName fname)) with
    | none => true
    | some v => v = str "ignore"

/-- One `if not FIXED: assert KEY in frame; LIST.append(...)` step of the
frame loop (lines 143-160): when the manifest fixes the intrinsic the list
is untouched, otherwise the frame must supply the value (assert) and it is
appended. -/
def intrinsicStep {α : Type} (metaVal frameVal : Option α) (acc : List α) :
    Except PErr (List α) :=
  match metaVal with
  | some _ => pure acc
  | none =>
    match frameVal with
    | none => Except.error PErr.assertIntrinsic
    | some v => pure (acc ++ [v])

/-- One iteration of the frame loop (lines 128-187).  `st` is the mutable
`self.downscale_factor`.  The skip paths (missing image file, indices-file
filter) execute `num_skipped_image_filenames += 1` on a local variable that
is never initialized, so they raise `UnboundLocalError`
(`PErr.unboundLocal`); a frame lacking a non-fixed intrinsic fails the
corresponding assert (`PErr.assertIntrinsic`). -/
def processFrame (fs : Fs) (cfg : Config) (meta : Meta)
    (indicesMap : Option (List (Str × Str))) (dataDir : Str)
    (st : Option ℕ) (acc : Collected) (frame : Frame) :
    Except PErr (Option ℕ × Collected) :=
  let filepath := lastTwoParts frame.filePath
  let r := getFname fs cfg.downscaleFactor st dataDir filepath (str "images_")
  let st1 := r.1
  let fname := r.2
  if fs.fileExists fname = false then Except.error PErr.unboundLocal
  else if frameFiltered indicesMap fname then Except.error PErr.unboundLocal
  else do
    let fx' ← intrinsicStep meta.flX frame.flX acc.fx
    let fy' ← intrinsicStep meta.flY frame.flY acc.fy
    let cx' ← intrinsicStep meta.cX frame.cX acc.cx
    let cy' ← intrinsicStep meta.cY frame.cY acc.cy
    let h' ← intrinsicStep meta.h frame.h acc.height
    let w' ← intrinsicStep meta.w frame.w acc.width
    let dist' := if distortFixed meta then acc.dist
      else acc.dist ++ [frame.distortionParams]
    let rm := match frame.maskPath with
      | none => (st1, acc.maskFilenames)
      | some mp =>
        let g := getFname fs cfg.downscaleFactor st1 dataDir mp (str "masks_")
        (g.1, acc.maskFilenames ++ [g.2])
    let rd := match frame.depthFilePath with
      | none => (rm.1, acc.depthFilenames)
      | some dp =>
        let g := getFname fs cfg.downscaleFactor rm.1 dataDir dp (str "depths_")
        (g.1, acc.depthFilenames ++ [g.2])
    pure (rd.1,
      { imageFilenames := acc.imageFilenames ++ [fname]
        maskFilenames := rm.2
        depthFilenames := rd.2
        poses := acc.poses ++ [frame.transformMatrix]
        fx := fx', fy := fy', cx := cx', cy := cy'
        height := h', width := w', dist := dist' })

/-- The frame loop `for frame in meta["frames"]` (lines 128-187). -/
def collectFrames (fs : Fs) (cfg : Config) (meta : Meta)
    (indicesMap : Option (List (Str × Str))) (dataDir : Str) :
    List Frame → Option ℕ → Collected → Except PErr (Option ℕ × Collected)
  | [], st, acc => Except.ok (st, acc)
  | f :: rest, st, acc => do
    let r ← processFrame fs cfg meta indicesMap dataDir st acc f
    collectFrames fs cfg meta indicesMap dataDir rest r.1 r.2

/-- The mask and depth length asserts (lines 189-200). -/
def checkMaskDepth (c : Collected) : Except PErr Unit :=
  if c.maskFilenames.length = 0 ∨ c.maskFilenames.length = c.imageFilenames.length then
    if c.depthFilenames.length = 0 ∨ c.depthFilenames.length = c.imageFilenames.length then
      Except.ok ()
    else Except.error PErr.assertDepthLen
  else Except.error PErr.assertMaskLen

/-- Computable ceiling on `ℚ` (`math.ceil`), via `⌈q⌉ = -⌊-q⌋` and the
numerator/denominator formula for the rational floor. -/
def ratCeil (q : ℚ) : ℤ := -((-q).num / ((-q).den : ℤ))

/-- `ratCeil` agrees with the mathematical ceiling. -/
theorem ratCeil_eq_ceil (q : ℚ) : ratCeil q = ⌈q⌉ := by
  have h1 : ⌊(-q)⌋ = (-q).num / ((-q).den : ℤ) := Rat.floor_def
  rw [ratCeil, ← h1, Int.floor_neg, neg_neg]

/-- Modelled from the spec: the constant `nerfstudio.defaults.SPLIT_MODE_ALL`
is imported by the dataparser but its defining module is not part of the
given sources; the spec's glossary fixes the split vocabulary to
`train`/`val`/`test`/`all`, so the all-splits mode constant is the string
`"all"` (consistent with the literal `"all"` used by the fractional branch
at line 279). -/
def SPLIT_MODE_ALL : Str := str "all"

/-- `np.linspace(0, N-1, n, dtype=int)` in exact arithmetic: `n` evenly
spaced points from `0` to `N-1`, truncated to integers (truncation is floor
on these non-negative values, and numpy's pinning of the final sample to the
stop value is already exact here).  `n = 0` gives the empty list and `n = 1`
gives `[0]` (numpy returns just the start point). -/
def linspaceInt (N n : ℕ) : List ℕ :=
  if n = 0 then []
  else if n = 1 then [0]
  else (List.range n).map fun i => i * (N - 1) / (n - 1)

/-- The deterministic fractional split (lines 263-282): `ceil(N * fraction)`
training indices by linear spacing, the remaining indices
(`np.setdiff1d`, which on `range N` is an order-preserving filter) for
`val`/`test`, every index for `all`. -/
def fractionalSplit (cfg : Config) (split : Str) (N : ℕ) : Except PErr (List ℕ) :=
  let numTrain : ℤ := ratCeil ((N : ℚ) * cfg.trainSplitFraction)
  let numEval : ℤ := (N : ℤ) - numTrain
  if numTrain < 0 then Except.error PErr.valueErrorNegSamples
  else
    let iAll := List.range N
    let iTrain := linspaceInt N numTrain.toNat
    let iEval := iAll.filter fun i => i ∉ iTrain
    if (iEval.length : ℤ) ≠ numEval then Except.error PErr.assertEvalCount
    else if split = str "train" then Except.ok iTrain
    else if split = str "val" ∨ split = str "test" then Except.ok iEval
    else if split = str "all" then Except.ok iAll
    else Except.error PErr.valueErrorSplit

/-- The loop over the indices-file items (lines 228-237): keys mapped to
`"ignore"` or to a split outside the strategy are skipped, every other key
is located in `image_filenames` with `list.index` (raising `ValueError` when
absent). -/
def indicesFromFile (dataDir : Str) (imageFilenames : List Str)
    (strategy : List Str) : List (Str × Str) → Except PErr (List ℕ)
  | [] => Except.ok []
  | (p, sp) :: rest =>
    if sp = str "ignore" then indicesFromFile dataDir imageFilenames strategy rest
    else if sp ∉ strategy then indicesFromFile dataDir imageFilenames strategy rest
    else
      match List.indexOf? (pathJoin dataDir p) imageFilenames with
      | none => Except.error PErr.valueErrorIndex
      | some i => do
        let is ← indicesFromFile dataDir imageFilenames strategy rest
        pure (i :: is)

/-- The indices-file block (lines 203-239): the split-name assert, the
strategy table, and the sorted index list built from the file's mapping.
The `raise ValueError` of line 221 is unreachable once the assert of lines
204-209 has passed. -/
def indicesFileBlock (indicesMap : List (Str × Str)) (dataDir split : Str)
    (imageFilenames : List Str) : Except PErr (List ℕ) :=
  if split ∉ [SPLIT_MODE_ALL, str "train", str "val", str "test"] then
    Except.error PErr.assertSplitName
  else
    let strategy :=
      if split = str "val" then [str "val"]
      else if split = str "train" then [str "train"]
      else if split = str "test" then [str "test"]
      else [str "train", str "val", str "test"]
    do
      let is ← indicesFromFile dataDir imageFilenames strategy indicesMap
      pure (List.insertionSort (· ≤ ·) is)

/-- The `{split}_filenames` branch (lines 240-249): resolve every listed
name through `_get_fname` (threading the downscale attribute), require each
resolved name to occur among the collected image filenames, and keep the
positions of the collected filenames that belong to the set. -/
def splitFilenamesIndices (fs : Fs) (cfg : Config) (names : List Str)
    (dataDir : Str) (st : Option ℕ) (imageFilenames : List Str) :
    Except PErr (List ℕ × Option ℕ) :=
  let folded := names.foldl
    (fun (p : Option ℕ × List Str) x =>
      let g := getFname fs cfg.downscaleFactor p.1 dataDir x (str "images_")
      (g.1, p.2 ++ [g.2]))
    (st, [])
  let sfn := folded.2
  if (sfn.filter fun x => x ∉ imageFilenames) ≠ [] then
    Except.error PErr.runtimeUnmatched
  else
    Except.ok (((imageFilenames.enum.filter fun pr => pr.2 ∈ sfn).map Prod.fst),
      folded.1)

/-- Split resolution (lines 202-284 up to the choice of `indices`).  The
indices-file block computes an index list that the following
`if f"SPLIT_filenames" in meta / elif has_split_files_spec / else`
chain unconditionally overwrites (line 240 opens a new `if`, not an
`elif`), so that list is a dead store; only its raised errors survive,
which is modelled by binding the block's result and discarding it. -/
def resolveIndices (fs : Fs) (cfg : Config) (meta : Meta)
    (indicesMap : Option (List (Str × Str))) (dataDir split : Str)
    (imageFilenames : List Str) (st : Option ℕ) :
    Except PErr (List ℕ × Option ℕ) := do
  let hasSplitFilesSpec :=
    (meta.trainFilenames).isSome || (meta.valFilenames).isSome ||
      (meta.testFilenames).isSome
  match indicesMap with
  | some ij =>
    let _ ← indicesFileBlock ij dataDir split imageFilenames
    pure ()
  | none => pure ()
  match meta.splitFilenames split with
  | some names => splitFilenamesIndices fs cfg names dataDir st imageFilenames
  | none =>
    if hasSplitFilesSpec then Except.error PErr.runtimeMissingSplit
    else do
      let is ← fractionalSplit cfg split imageFilenames.length
      pure (is, st)

/-- The signature of `camera_utils.auto_orient_and_center_poses`
(orientation method, center method, poses ↦ oriented poses, transform).
The function lives outside the given sources and is a parameter of the
embedding. -/
abbrev OrientFn := Str → Str → List Mat4 → List Mat4 × Mat4

/-- A camera intrinsic as the `Cameras` constructor receives it: one fixed
manifest-level value, or one value per selected frame. -/
inductive IntrinVal (α : Type) where
  | fixed (v : α)
  | perFrame (vs : List α)
deriving DecidableEq

/-- The arguments the parser passes to the `Cameras` constructor (lines
351-361), together with the scaling factor of the subsequent
`rescale_output_resolution` call (line 364); the constructor itself is an
external collaborator. -/
structure CamerasArgs where
  fx : IntrinVal ℚ
  fy : IntrinVal ℚ
  cx : IntrinVal ℚ
  cy : IntrinVal ℚ
  height : IntrinVal ℤ
  width : IntrinVal ℤ
  distortionParams : IntrinVal DistortionParams
  cameraToWorlds : List Mat4
  rescaleFactor : ℚ
deriving DecidableEq

/-- The fields of the returned `DataparserOutputs` that the claims consult
(`scene_box` is a constant box scaled by `scene_scale` and is omitted). -/
structure Outputs where
  imageFilenames : List Str
  cameras : CamerasArgs
  maskFilenames : Option (List Str)
  depthFilenames : Option (List Str)
  dataparserScale : ℚ
  dataparserTransform : Mat4
deriving DecidableEq

/-- Python list indexing by an index list (`[xs[i] for i in indices]`,
tensor gather).  All index lists the parser builds are in range; an
out-of-range index (which would raise in Python) is dropped. -/
def selectIdx {α : Type} (xs : List α) (idx : List ℕ) : List α :=
  idx.filterMap fun i => xs.get? i

/-- `float(torch.max(torch.abs(poses[:, :3, 3])))` (line 302): the largest
absolute value of a translation component over all poses. -/
def maxAbsTranslation (poses : List Mat4) : ℚ :=
  (poses.map fun p => max |mget p 0 3| (max |mget p 1 3| |mget p 2 3|)).foldr max 0

/-- `poses[:, :3, 3] *= scale_factor` (line 305) on one pose, with the pose
laid out as a full 4x4 matrix. -/
def scalePose (s : ℚ) (p : Mat4) : Mat4 :=
  (List.range 4).map fun i => (List.range 4).map fun j =>
    if i < 3 ∧ j = 3 then s * mget p i j else mget p i j

/-- The auto-scaling step (lines 299-303) up to the multiplication by
`config.scale_factor`: Python raises `ZeroDivisionError` when every
translation component is zero and `auto_scale_poses` is set. -/
def autoScale1 (cfg : Config) (m : ℚ) : Except PErr ℚ :=
  if cfg.autoScalePoses then
    (if m = 0 then Except.error PErr.zeroDivision else pure ((1 : ℚ) / m))
  else pure 1

/-- The `assert self.downscale_factor is not None` of line 363. -/
def requireDownscale (st : Option ℕ) : Except PErr ℕ :=
  match st with
  | none => Except.error PErr.assertDownscale
  | some d => pure d

/-- The pure remainder of lines 286-387 once the auto-scale factor `s1` and
the downscale attribute `d` are in hand: orientation (with the manifest
override), translation scaling, per-split selection of filenames, poses and
intrinsics, and the `applied_transform` / `applied_scale` adjustments. -/
def finalizeOutputs (orient : OrientFn) (cfg : Config) (meta : Meta)
    (c : Collected) (indices : List ℕ) (d : ℕ) (s1 : ℚ) : Outputs :=
  let op := orient ((meta.orientationOverride).getD cfg.orientationMethod)
    cfg.centerMethod c.poses
  let poses1 := op.1
  let transform0 := op.2
  let scale2 := s1 * cfg.scaleFactor
  let poses2 := poses1.map (scalePose scale2)
  let maskSel := if 0 < c.maskFilenames.length then selectIdx c.maskFilenames indices else []
  let depthSel := if 0 < c.depthFilenames.length then selectIdx c.depthFilenames indices else []
  { imageFilenames := selectIdx c.imageFilenames indices
    cameras :=
      { fx := match meta.flX with
          | some v => IntrinVal.fixed v
          | none => IntrinVal.perFrame (selectIdx c.fx indices)
        fy := match meta.flY with
          | some v => IntrinVal.fixed v
          | none => IntrinVal.perFrame (selectIdx c.fy indices)
        cx := match meta.cX with
          | some v => IntrinVal.fixed v
          | none => IntrinVal.perFrame (selectIdx c.cx indices)
        cy := match meta.cY with
          | some v => IntrinVal.fixed v
          | none => IntrinVal.perFrame (selectIdx c.cy indices)
        height := match meta.h with
          | some v => IntrinVal.fixed v
          | none => IntrinVal.perFrame (selectIdx c.height indices)
        width := match meta.w with
          | some v => IntrinVal.fixed v
          | none => IntrinVal.perFrame (selectIdx c.width indices)
        distortionParams := if distortFixed meta then IntrinVal.fixed (metaDistortion meta)
          else IntrinVal.perFrame (selectIdx c.dist indices)
        cameraToWorlds := (selectIdx poses2 indices).map fun p => p.take 3
        rescaleFactor := 1 / (d : ℚ) }
    maskFilenames := if 0 < maskSel.length then some maskSel else none
    depthFilenames := if 0 < depthSel.length then some depthSel else none
    dataparserScale := match meta.appliedScale with
      | none => scale2
      | some s => scale2 * s
    dataparserTransform := match meta.appliedTransform with
      | none => transform0
      | some apt => matMul transform0 (apt.take 3 ++ [[0, 0, 0, 1]]) }

/-- Lines 286-387 assembled: the two fallible steps (auto-scale division,
downscale assert) in source order around the pure remainder. -/
def finalize (orient : OrientFn) (cfg : Config) (meta : Meta) (c : Collected)
    (indices : List ℕ) (st : Option ℕ) : Except PErr Outputs :=
  (autoScale1 cfg (maxAbsTranslation
      (orient ((meta.orientationOverride).getD cfg.orientationMethod)
        cfg.centerMethod c.poses).1)) >>= fun s1 =>
  (requireDownscale st) >>= fun d =>
  pure (finalizeOutputs orient cfg meta c indices d s1)

/-- Lines 94-102: when an `indices_file` is configured, its JSON contents
are loaded (`FileNotFoundError` when the path is not a file); otherwise no
indices mapping is in play. -/
def loadIndicesMap (fs : Fs) (cfg : Config) :
    Except PErr (Option (List (Str × Str))) :=
  match cfg.indicesFile with
  | none => Except.ok none
  | some p =>
    match fs.indicesContent p with
    | some mp => Except.ok (some mp)
    | none => Except.error PErr.fileNotFound

/-- `Nerfstudio._generate_dataparser_outputs` (lines 84-387), with the data
directory already resolved from `config.data` (lines 85-92) and the manifest
already decoded (`load_from_json`).  `orient` is the external
`auto_orient_and_center_poses`. -/
def generateDataparserOutputs (orient : OrientFn) (fs : Fs) (cfg : Config)
    (meta : Meta) (dataDir split : Str) : Except PErr Outputs := do
  let indicesMap ← loadIndicesMap fs cfg
  let r ← collectFrames fs cfg meta indicesMap dataDir meta.frames none {}
  checkMaskDepth r.2
  let ri ← resolveIndices fs cfg meta indicesMap dataDir split r.2.imageFilenames r.1
  if ri.1 = [] then Except.error PErr.assertEmptyIndices
  else finalize orient cfg meta r.2 ri.1 ri.2

/-- Index of the first occurrence of `sep` as a contiguous sublist of `s`
(the position Python `str.find` / `str.split` locates). -/
def findSub (sep : Str) : Str → Option ℕ
  | [] => if sep.isEmpty then some 0 else none
  | c :: t =>
    if List.isPrefixOf sep (c :: t) then some 0
    else (findSub sep t).map (· + 1)

/-- Element `[0]` of Python `s.split(sep)`: the part before the first
occurrence of `sep` (all of `s` when `sep` does not occur). -/
def beforeFirst (sep s : Str) : Str :=
  match findSub sep s with
  | none => s
  | some i => s.take i

/-- Element `[1]` of Python `s.split(sep)`: the part between the first and
second occurrences of `sep` (`none` models the `IndexError` when `sep` does
not occur at all). -/
def afterFirstPart (sep s : Str) : Option Str :=
  (findSub sep s).map fun i => beforeFirst sep (s.drop (i + sep.length))

/-- Python `int()` on the strings this code feeds it, modelled for
non-negative decimal digit strings (`none` models the `ValueError` raised on
anything else). -/
def parseNat (s : Str) : Option ℕ :=
  if s.isEmpty then none
  else if s.all (·.isDigit) then
    some (s.foldl (fun acc c => acc * 10 + (c.toNat - 48)) 0)
  else none

/-- The raise sites of the modelled evaluation script. -/
inductive EErr where
  | indexError
  | valueError
  | assertionError
  | nameError
deriving DecidableEq, Repr

/-- `my_utils.get_step_from_ckpt_path` (my_utils.py lines 107-111):
`int(checkpoint_path.stem.split("step-")[1].split(".ckpt")[0])`. -/
def getStepFromCkptPath (path : Str) : Except EErr ℕ :=
  let stem := pathStem path
  match afterFirstPart (str "step-") stem with
  | none => Except.error EErr.indexError
  | some rest =>
    match parseNat (beforeFirst (str ".ckpt") rest) with
    | none => Except.error EErr.valueError
    | some n => Except.ok n

/-- `my_utils.get_sequence_size_from_experiment` (my_utils.py lines
114-115): `int(experiment_name.split("_n_")[1].split("-")[0])`. -/
def getSequenceSizeFromExperiment (nm : Str) : Except EErr ℕ :=
  match afterFirstPart (str "_n_") nm with
  | none => Except.error EErr.indexError
  | some rest =>
    match parseNat (beforeFirst (str "-") rest) with
    | none => Except.error EErr.valueError
    | some n => Except.ok n

/-- JSON values appearing in the benchmark dictionaries of `eval.py`.
The nested per-image metric dictionaries the pipeline produces are opaque to
this script and carried as tagged atoms (`jdict`). -/
inductive JVal where
  | jstr (s : Str)
  | jint (n : ℕ)
  | jnull
  | jbool (b : Bool)
  | jdict (tag : ℕ)
deriving DecidableEq

/-- The external state `eval.py` interacts with: the `experiment_name` and
`method_name` of the loaded `TrainerConfig` (eval_setup reads them from the
config YAML), and the per-split outcome of
`pipeline.get_average_eval_image_metrics` — per-image/aggregate entries on
success, or the `SceneDiverged` exception (`Except.error ()`). -/
structure EvalEnv where
  experimentName : Str
  methodName : Str
  metrics : Str → Except Unit (List (Str × JVal))

/-- The CLI dataclass `ComputePSNR` (eval.py lines 41-51). -/
structure ComputePSNR where
  loadConfig : Str
  experimentSuffix : Str
  loadCkpt : Str
  outputPath : Str := str "output.json"

/-- `Path.suffix`: the final extension of the last component, with the dot,
or the empty string when there is none. -/
def pathSuffix (s : Str) : Str :=
  let nm := pathName s
  let ps := nm.splitOn '.'
  if ps.length ≤ 1 then [] else '.' :: ps.getLastD []

/-- The `sequence_size` computation of eval.py lines 69-71: `None` when the
experiment name carries no `_n_` tag, else the parsed size.  Below it, one
iteration of the split loop of `ComputePSNR.main` (eval.py lines 55-93), up
to and including the `write_text` call.  `eval_setup` passes
`load_ckpt=self.load_ckpt`, and `eval_load_checkpoint` (eval_utils.py line
46) makes that very path the returned `checkpoint_path`.  The returned
triple is (written path, written JSON as an insertion-ordered key/value
list, whether the local `metrics_dict` is bound after the `try`).
`mdBound` says whether `metrics_dict` was bound when the iteration
started. -/
def seqStep (nm : Str) : Except EErr JVal :=
  if (findSub (str "_n_") nm).isSome then
    (getSequenceSizeFromExperiment nm).map JVal.jint
  else pure JVal.jnull

/-- The f-string of eval.py line 63 building the output file name. -/
def outNameOf (cmd : ComputePSNR) (split : Str) : Str :=
  pathStem cmd.loadCkpt ++ str "_metrics_" ++ split ++ str "_"
    ++ cmd.experimentSuffix ++ str "_strictbox.json"

/-- `Path(self.load_ckpt.parent, out_name)` of eval.py line 64. -/
def outPathOf (cmd : ComputePSNR) (split : Str) : Str :=
  pathJoin (pathParent cmd.loadCkpt) (outNameOf cmd split)

/-- The `benchmark_info` dictionary of eval.py lines 73-79 before the
metrics update. -/
def benchBase (env : EvalEnv) (cmd : ComputePSNR) (step : ℕ) (seq : JVal) :
    List (Str × JVal) :=
  [(str "experiment_name", JVal.jstr env.experimentName),
   (str "step", JVal.jint step),
   (str "sequence_size", seq),
   (str "method_name", JVal.jstr env.methodName),
   (str "checkpoint_path", JVal.jstr cmd.loadCkpt)]

def evalIteration (env : EvalEnv) (cmd : ComputePSNR) (split : Str)
    (mdBound : Bool) : Except EErr (Str × List (Str × JVal) × Bool) :=
  let outputPath := outPathOf cmd split
  if pathSuffix outputPath ≠ str ".json" then Except.error EErr.assertionError
  else
    (getStepFromCkptPath cmd.loadCkpt) >>= fun step =>
    (seqStep env.experimentName) >>= fun seq =>
    match env.metrics split with
    | Except.ok md =>
        Except.ok (outputPath,
          benchBase env cmd step seq ++ md ++ [(str "scene_diverged", JVal.jbool false)],
          true)
    | Except.error _ =>
        Except.ok (outputPath,
          benchBase env cmd step seq ++ [(str "scene_diverged", JVal.jbool true)],
          mdBound)

/-- The split loop of `ComputePSNR.main`: after each successful write the
teardown runs `del metrics_dict`, which raises `NameError` when the name is
unbound in that iteration (never assigned, or deleted by the previous
iteration and not re-assigned).  Returns the files written so far and the
exception, if any, that ended the loop. -/
def evalLoop (env : EvalEnv) (cmd : ComputePSNR) :
    List Str → Bool → List (Str × List (Str × JVal)) →
    List (Str × List (Str × JVal)) × Option EErr
  | [], _, writes => (writes, none)
  | split :: rest, mdBound, writes =>
    match evalIteration env cmd split mdBound with
    | Except.error e => (writes, some e)
    | Except.ok (path, info, bound') =>
      let writes' := writes ++ [(path, info)]
      if bound' then evalLoop env cmd rest false writes'
      else (writes', some EErr.nameError)

/-- `ComputePSNR.main` (eval.py lines 53-101): evaluate the splits
`["val", "test"]` in order; `metrics_dict` starts unbound. -/
def computePSNRMain (env : EvalEnv) (cmd : ComputePSNR) :
    List (Str × List (Str × JVal)) × Option EErr :=
  evalLoop env cmd [str "val", str "test"] false []

/-- Inversion of a successful `Except.bind`. -/
theorem except_bind_ok {ε α β : Type} {e : Except ε α} {f : α → Except ε β} {b : β}
    (h : e.bind f = Except.ok b) : ∃ a, e = Except.ok a ∧ f a = Except.ok b := by
  cases e with
  | error x => exact absurd h (by simp [Except.bind])
  | ok a => exact ⟨a, rfl, h⟩

/-- Any natural is below the resolution bound scaled by its own power of
two: the witness that the probe loop's first stop condition is eventually
true. -/
theorem maxRes_lt_bound (maxRes : ℕ) : maxRes < MAX_AUTO_RESOLUTION * 2 ^ maxRes := by
  calc maxRes < maxRes + 1 := Nat.lt_succ_self maxRes
    _ ≤ 2 ^ maxRes := Nat.succ_le_of_lt (Nat.lt_two_pow maxRes)
    _ ≤ MAX_AUTO_RESOLUTION * 2 ^ maxRes := by
        have : 1 * 2 ^ maxRes ≤ MAX_AUTO_RESOLUTION * 2 ^ maxRes :=
          Nat.mul_le_mul_right _ (by norm_num [MAX_AUTO_RESOLUTION])
        simpa using this

/-- The fuelled probe loop, started below the stopping index with enough
fuel, halts exactly at the least index satisfying `probeStop`. -/
theorem probeAux_eq_probeDf (fs : Fs) (dataDir pfx nm : Str) (maxRes : ℕ) :
    ∀ fuel d, (∀ e, e < d → ¬ probeStop fs dataDir pfx nm maxRes e) →
      probeDf fs dataDir pfx nm maxRes < d + fuel →
      probeAux fs dataDir pfx nm maxRes d fuel =
        some (probeDf fs dataDir pfx nm maxRes) := by
  intro fuel
  induction fuel with
  | zero =>
    intro d hlow hfuel
    have hfuel' : probeDf fs dataDir pfx nm maxRes < d := by omega
    exact absurd (Nat.find_spec (probeStop_exists fs dataDir pfx nm maxRes))
      (hlow _ hfuel')
  | succ fuel ih =>
    intro d hlow hfuel
    by_cases h1 : maxRes < MAX_AUTO_RESOLUTION * 2 ^ d
    · have hstop : probeStop fs dataDir pfx nm maxRes d := Or.inl h1
      have hle : probeDf fs dataDir pfx nm maxRes ≤ d := Nat.find_min' _ hstop
      have hge : d ≤ probeDf fs dataDir pfx nm maxRes := by
        by_contra hcon
        exact hlow _ (Nat.lt_of_not_le hcon)
          (Nat.find_spec (probeStop_exists fs dataDir pfx nm maxRes))
      have : d = probeDf fs dataDir pfx nm maxRes := Nat.le_antisymm hge hle
      rw [← this]
      simp [probeAux, h1]
    · by_cases h2 : fs.fileExists
        (pathJoin dataDir (pathJoin (pfx ++ natStr (2 ^ (d + 1))) nm)) = true
      · have hnostop : ¬ probeStop fs dataDir pfx nm maxRes d := by
          intro hc
          rcases hc with hc | hc
          · exact h1 hc
          · exact hc h2
        have hlow' : ∀ e, e < d + 1 → ¬ probeStop fs dataDir pfx nm maxRes e := by
          intro e he
          rcases Nat.lt_succ_iff_lt_or_eq.mp he with he | rfl
          · exact hlow e he
          · exact hnostop
        have := ih (d + 1) hlow' (by omega)
        simpa [probeAux, h1, h2] using this
      · have hstop : probeStop fs dataDir pfx nm maxRes d := Or.inr h2
        have hle : probeDf fs dataDir pfx nm maxRes ≤ d := Nat.find_min' _ hstop
        have hge : d ≤ probeDf fs dataDir pfx nm maxRes := by
          by_contra hcon
          exact hlow _ (Nat.lt_of_not_le hcon)
            (Nat.find_spec (probeStop_exists fs dataDir pfx nm maxRes))
        have : d = probeDf fs dataDir pfx nm maxRes := Nat.le_antisymm hge hle
        rw [← this]
        simp [probeAux, h1, h2]

/-- C4: with no explicit `downscale_factor` configured and the attribute not
yet set, `_get_fname` picks the factor `2 ^ df` where `df` is the least
count at which the probe image's max dimension divided by `2 ^ df` falls
strictly below `MAX_AUTO_RESOLUTION` or the `images_{2^(df+1)}` directory
(with the given prefix) lacks the file; the `while True` probe loop
terminates (within `maxRes + 1` iterations) at exactly that `df`; and the
returned path is the `{prefix}{factor}` sibling of the original for factor
greater than one, the original path otherwise. -/
theorem C4_get_fname_probe (fs : Fs) (dataDir filepath pfx : Str) :
    let sz := fs.imageSize (pathJoin dataDir filepath)
    let maxRes := max sz.1 sz.2
    let nm := pathName filepath
    let df := probeDf fs dataDir pfx nm maxRes
    probeAux fs dataDir pfx nm maxRes 0 (maxRes + 1) = some df ∧
    probeStop fs dataDir pfx nm maxRes df ∧
    (∀ e, e < df → ¬ probeStop fs dataDir pfx nm maxRes e) ∧
    getFname fs none none dataDir filepath pfx =
      (if 1 < 2 ^ df then
        (some (2 ^ df), pathJoin dataDir (pathJoin (pfx ++ natStr (2 ^ df)) nm))
      else (some (2 ^ df), pathJoin dataDir filepath)) := by
  intro sz maxRes nm df
  refine ⟨?_, ?_, ?_, ?_⟩
  · exact probeAux_eq_probeDf fs dataDir pfx nm maxRes (maxRes + 1) 0
      (by intro e he; omega)
      (by
        have : df ≤ maxRes := Nat.find_min' _ (Or.inl (maxRes_lt_bound maxRes))
        omega)
  · exact Nat.find_spec (probeStop_exists fs dataDir pfx nm maxRes)
  · intro e he
    exact Nat.find_min (probeStop_exists fs dataDir pfx nm maxRes) he
  · rfl

deriving instance DecidableEq for Except

/-- Inversion of a successful monadic bind over `Except`. -/
theorem exceptM_bind_ok {ε α β : Type} {e : Except ε α} {f : α → Except ε β} {b : β}
    (h : (e >>= f) = Except.ok b) : ∃ a, e = Except.ok a ∧ f a = Except.ok b := by
  cases e with
  | error x => exact absurd h (by simp [Bind.bind, Except.bind])
  | ok a =>
    refine ⟨a, rfl, ?_⟩
    simpa [Bind.bind, Except.bind] using h

/-- `_generate_dataparser_outputs` as the explicit chain of its stages. -/
theorem generate_eq (orient : OrientFn) (fs : Fs) (cfg : Config) (meta : Meta)
    (dataDir split : Str) :
    generateDataparserOutputs orient fs cfg meta dataDir split =
      ((loadIndicesMap fs cfg) >>= fun im =>
        (collectFrames fs cfg meta im dataDir meta.frames none {}) >>= fun r =>
        (checkMaskDepth r.2) >>= fun _ =>
        (resolveIndices fs cfg meta im dataDir split r.2.imageFilenames r.1) >>= fun ri =>
        if ri.1 = [] then Except.error PErr.assertEmptyIndices
        else finalize orient cfg meta r.2 ri.1 ri.2) := rfl

/-- Inversion of a successful parser run into its stages. -/
theorem generate_ok_elim {orient : OrientFn} {fs : Fs} {cfg : Config} {meta : Meta}
    {dataDir split : Str} {o : Outputs}
    (h : generateDataparserOutputs orient fs cfg meta dataDir split = Except.ok o) :
    ∃ im r ri, loadIndicesMap fs cfg = Except.ok im ∧
      collectFrames fs cfg meta im dataDir meta.frames none {} = Except.ok r ∧
      checkMaskDepth r.2 = Except.ok () ∧
      resolveIndices fs cfg meta im dataDir split r.2.imageFilenames r.1 = Except.ok ri ∧
      ri.1 ≠ [] ∧
      finalize orient cfg meta r.2 ri.1 ri.2 = Except.ok o := by
  rw [generate_eq] at h
  obtain ⟨im, him, h⟩ := exceptM_bind_ok h
  obtain ⟨r, hr, h⟩ := exceptM_bind_ok h
  obtain ⟨u, hu, h⟩ := exceptM_bind_ok h
  obtain ⟨ri, hri, h⟩ := exceptM_bind_ok h
  refine ⟨im, r, ri, him, hr, ?_, hri, ?_, ?_⟩
  · cases u; exact hu
  · intro hnil
    rw [if_pos hnil] at h
    exact Except.noConfusion h
  · by_cases hnil : ri.1 = []
    · rw [if_pos hnil] at h
      exact absurd h (by intro hc; exact Except.noConfusion hc)
    · rwa [if_neg hnil] at h

/-- A trivial stand-in for the external `auto_orient_and_center_poses`, used
by the concrete witnesses: poses unchanged, identity transform. -/
def idOrient : OrientFn :=
  fun _ _ ps => (ps, [[1, 0, 0, 0], [0, 1, 0, 0], [0, 0, 1, 0], [0, 0, 0, 1]])

/-- A filesystem on which every path exists, every image probes at 100x100,
and no indices file has contents. -/
def fsA : Fs :=
  { fileExists := fun _ => true
    imageSize := fun _ => (100, 100)
    indicesContent := fun _ => none }

/-- A config with an explicit downscale factor of 1 and auto scaling off. -/
def cfgA : Config := { downscaleFactor := some 1, autoScalePoses := false }

/-- A frame with the given file path and a fixed affine pose. -/
def frameA (p : String) : Frame :=
  { filePath := str p
    transformMatrix := [[1, 0, 0, 1], [0, 1, 0, 2], [0, 0, 1, 3], [0, 0, 0, 1]] }

/-- A single-frame manifest with all intrinsics fixed at top level. -/
def metaA : Meta :=
  { frames := [frameA "images/f0.png"]
    flX := some 100, flY := some 100, cX := some 50, cY := some 50
    h := some 100, w := some 100, k1 := some 0 }

/-- The data directory of the concrete runs. -/
def dirA : Str := str "d"

/-- C5: a successful `_generate_dataparser_outputs` run always passed a
non-empty resolved index list (first conjunct), and when split resolution
succeeds with an empty index list the parser raises the `len(indices)`
assert of line 284 instead of returning (second conjunct). -/
theorem C5_nonempty_indices (orient : OrientFn) (fs : Fs) (cfg : Config)
    (meta : Meta) (dataDir split : Str) :
    (∀ o, generateDataparserOutputs orient fs cfg meta dataDir split = Except.ok o →
      ∃ im r ri, loadIndicesMap fs cfg = Except.ok im ∧
        collectFrames fs cfg meta im dataDir meta.frames none {} = Except.ok r ∧
        resolveIndices fs cfg meta im dataDir split r.2.imageFilenames r.1 =
          Except.ok ri ∧ ri.1 ≠ []) ∧
    (∀ im r ri, loadIndicesMap fs cfg = Except.ok im →
      collectFrames fs cfg meta im dataDir meta.frames none {} = Except.ok r →
      checkMaskDepth r.2 = Except.ok () →
      resolveIndices fs cfg meta im dataDir split r.2.imageFilenames r.1 = Except.ok ri →
      ri.1 = [] →
      generateDataparserOutputs orient fs cfg meta dataDir split =
        Except.error PErr.assertEmptyIndices) := by
  constructor
  · intro o h
    obtain ⟨im, r, ri, him, hr, _, hri, hne, _⟩ := generate_ok_elim h
    exact ⟨im, r, ri, him, hr, hri, hne⟩
  · intro im r ri him hr hchk hri hnil
    rw [generate_eq, him]
    show (Except.ok im >>= fun im => _) = _
    rw [show ∀ (f : _ → Except PErr Outputs), (Except.ok im >>= f) = f im from
      fun _ => rfl]
    rw [hr]
    rw [show ∀ (f : _ → Except PErr Outputs),
      (Except.ok r >>= f) = f r from fun _ => rfl]
    rw [hchk]
    rw [show ∀ (f : Unit → Except PErr Outputs),
      (Except.ok () >>= f) = f () from fun _ => rfl]
    rw [hri]
    rw [show ∀ (f : _ → Except PErr Outputs),
      (Except.ok ri >>= f) = f ri from fun _ => rfl]
    rw [if_pos hnil]

/-- Witness for C5 at a concrete run: a one-frame manifest under the default
train fraction leaves the `val` split empty, and the parser raises. -/
theorem C5_nonempty_indices_witness :
    generateDataparserOutputs idOrient fsA cfgA metaA dirA (str "val") =
      Except.error PErr.assertEmptyIndices :=
  (C5_nonempty_indices idOrient fsA cfgA metaA dirA (str "val")).2
    none
    (some 1, { imageFilenames := [str "d/images/f0.png"]
               poses := [[[1, 0, 0, 1], [0, 1, 0, 2], [0, 0, 1, 3], [0, 0, 0, 1]]] })
    ([], some 1)
    (by with_unfolding_all decide)
    (by with_unfolding_all decide)
    (by with_unfolding_all decide)
    (by with_unfolding_all decide)
    rfl

/-- An intrinsic step succeeds exactly when the manifest fixes the value or
the frame supplies it. -/
theorem intrinsicStep_ok {α : Type} (metaVal frameVal : Option α) (acc : List α)
    (h : metaVal.isSome ∨ frameVal.isSome) :
    ∃ l, intrinsicStep metaVal frameVal acc = Except.ok l := by
  cases metaVal with
  | some v => exact ⟨acc, rfl⟩
  | none =>
    cases frameVal with
    | some v => exact ⟨acc ++ [v], rfl⟩
    | none => simp at h

/-- A successful intrinsic step for a non-fixed parameter means the frame
supplied the value (this is the `assert KEY in frame`). -/
theorem intrinsicStep_ok_elim {α : Type} {metaVal frameVal : Option α}
    {acc l : List α} (h : intrinsicStep metaVal frameVal acc = Except.ok l)
    (hm : metaVal = none) : frameVal.isSome := by
  rw [hm] at h
  cases frameVal with
  | some v => rfl
  | none => exact absurd h (by simp [intrinsicStep])

/-- A successful `processFrame` reached neither skip path, appended exactly
one image filename, accounted masks and depths, and saw every non-fixed
intrinsic supplied by the frame. -/
theorem processFrame_ok_elim {fs : Fs} {cfg : Config} {meta : Meta}
    {im : Option (List (Str × Str))} {dataDir : Str} {st : Option ℕ}
    {acc : Collected} {frame : Frame} {p : Option ℕ × Collected}
    (h : processFrame fs cfg meta im dataDir st acc frame = Except.ok p) :
    fs.fileExists (getFname fs cfg.downscaleFactor st dataDir
        (lastTwoParts frame.filePath) (str "images_")).2 = true ∧
      frameFiltered im (getFname fs cfg.downscaleFactor st dataDir
        (lastTwoParts frame.filePath) (str "images_")).2 = false ∧
      p.2.imageFilenames = acc.imageFilenames ++
        [(getFname fs cfg.downscaleFactor st dataDir
          (lastTwoParts frame.filePath) (str "images_")).2] ∧
      p.2.maskFilenames.length = acc.maskFilenames.length +
        (if frame.maskPath.isSome then 1 else 0) ∧
      p.2.depthFilenames.length = acc.depthFilenames.length +
        (if frame.depthFilePath.isSome then 1 else 0) ∧
      (meta.flX = none → frame.flX.isSome) ∧
      (meta.flY = none → frame.flY.isSome) ∧
      (meta.cX = none → frame.cX.isSome) ∧
      (meta.cY = none → frame.cY.isSome) ∧
      (meta.h = none → frame.h.isSome) ∧
      (meta.w = none → frame.w.isSome) := by
  simp only [processFrame] at h
  by_cases h1 : fs.fileExists (getFname fs cfg.downscaleFactor st dataDir
      (lastTwoParts frame.filePath) (str "images_")).2 = false
  · rw [if_pos h1] at h
    exact absurd h (by simp)
  · rw [if_neg h1] at h
    by_cases h2 : frameFiltered im (getFname fs cfg.downscaleFactor st dataDir
        (lastTwoParts frame.filePath) (str "images_")).2 = true
    · rw [if_pos h2] at h
      exact absurd h (by simp)
    · rw [if_neg h2] at h
      obtain ⟨fx', hfx, h⟩ := exceptM_bind_ok h
      obtain ⟨fy', hfy, h⟩ := exceptM_bind_ok h
      obtain ⟨cx', hcx, h⟩ := exceptM_bind_ok h
      obtain ⟨cy', hcy, h⟩ := exceptM_bind_ok h
      obtain ⟨h', hh, h⟩ := exceptM_bind_ok h
      obtain ⟨w', hw, h⟩ := exceptM_bind_ok h
      have hp := Except.ok.inj h
      refine ⟨by simpa using h1, by simpa using h2, ?_, ?_, ?_,
        fun hm => intrinsicStep_ok_elim hfx hm,
        fun hm => intrinsicStep_ok_elim hfy hm,
        fun hm => intrinsicStep_ok_elim hcx hm,
        fun hm => intrinsicStep_ok_elim hcy hm,
        fun hm => intrinsicStep_ok_elim hh hm,
        fun hm => intrinsicStep_ok_elim hw hm⟩
      · rw [← hp]
      · rw [← hp]
        cases hm : frame.maskPath with
        | none => simp [hm]
        | some mp => simp [hm]
      · rw [← hp]
        cases hd : frame.depthFilePath with
        | none => simp [hd]
        | some dp =>
          cases hm : frame.maskPath with
          | none => simp [hd]
          | some mp => simp [hd]

/-- A skip path at the head frame aborts the whole loop with the
uninitialized-counter error. -/
theorem collect_skip_unbound (fs : Fs) (cfg : Config) (meta : Meta)
    (im : Option (List (Str × Str))) (dataDir : Str) (frame : Frame)
    (rest : List Frame) (st : Option ℕ) (acc : Collected)
    (hskip : fs.fileExists (getFname fs cfg.downscaleFactor st dataDir
        (lastTwoParts frame.filePath) (str "images_")).2 = false ∨
      frameFiltered im (getFname fs cfg.downscaleFactor st dataDir
        (lastTwoParts frame.filePath) (str "images_")).2 = true) :
    collectFrames fs cfg meta im dataDir (frame :: rest) st acc =
      Except.error PErr.unboundLocal := by
  have hpf : processFrame fs cfg meta im dataDir st acc frame =
      Except.error PErr.unboundLocal := by
    simp only [processFrame]
    rcases hskip with hmiss | hfilt
    · rw [if_pos hmiss]
    · by_cases hmiss : fs.fileExists (getFname fs cfg.downscaleFactor st dataDir
          (lastTwoParts frame.filePath) (str "images_")).2 = false
      · rw [if_pos hmiss]
      · rw [if_neg hmiss, if_pos hfilt]
  show (processFrame fs cfg meta im dataDir st acc frame >>= fun r =>
    collectFrames fs cfg meta im dataDir rest r.1 r.2) = _
  rw [hpf]
  rfl

/-- A successful frame loop appended one image filename per manifest frame:
nothing was skipped. -/
theorem collect_ok_length (fs : Fs) (cfg : Config) (meta : Meta)
    (im : Option (List (Str × Str))) (dataDir : Str) :
    ∀ (frames : List Frame) (st : Option ℕ) (acc : Collected)
      (r : Option ℕ × Collected),
      collectFrames fs cfg meta im dataDir frames st acc = Except.ok r →
      r.2.imageFilenames.length = acc.imageFilenames.length + frames.length := by
  intro frames
  induction frames with
  | nil =>
    intro st acc r h
    have := Except.ok.inj h
    rw [← this]
    simp
  | cons f rest ih =>
    intro st acc r h
    have hbind : (processFrame fs cfg meta im dataDir st acc f >>= fun q =>
        collectFrames fs cfg meta im dataDir rest q.1 q.2) = Except.ok r := h
    obtain ⟨q, hq, hrest⟩ := exceptM_bind_ok hbind
    have hlen := ih q.1 q.2 r hrest
    have himg := (processFrame_ok_elim hq).2.2.1
    rw [hlen, himg]
    simp
    omega

/-- A frame whose required intrinsics are available never fails an
intrinsics assert: `processFrame` either succeeds or raises the
uninitialized-counter error. -/
theorem processFrame_ok_or_unbound (fs : Fs) (cfg : Config) (meta : Meta)
    (im : Option (List (Str × Str))) (dataDir : Str) (st : Option ℕ)
    (acc : Collected) (frame : Frame)
    (hintr : (meta.flX.isSome ∨ frame.flX.isSome) ∧
      (meta.flY.isSome ∨ frame.flY.isSome) ∧
      (meta.cX.isSome ∨ frame.cX.isSome) ∧
      (meta.cY.isSome ∨ frame.cY.isSome) ∧
      (meta.h.isSome ∨ frame.h.isSome) ∧
      (meta.w.isSome ∨ frame.w.isSome)) :
    (∃ p, processFrame fs cfg meta im dataDir st acc frame = Except.ok p) ∨
      processFrame fs cfg meta im dataDir st acc frame =
        Except.error PErr.unboundLocal := by
  obtain ⟨hfx, hfy, hcx, hcy, hh, hw⟩ := hintr
  simp only [processFrame]
  by_cases h1 : fs.fileExists (getFname fs cfg.downscaleFactor st dataDir
      (lastTwoParts frame.filePath) (str "images_")).2 = false
  · rw [if_pos h1]
    exact Or.inr rfl
  · rw [if_neg h1]
    by_cases h2 : frameFiltered im (getFname fs cfg.downscaleFactor st dataDir
        (lastTwoParts frame.filePath) (str "images_")).2 = true
    · rw [if_pos h2]
      exact Or.inr rfl
    · rw [if_neg h2]
      left
      obtain ⟨lfx, hlfx⟩ := intrinsicStep_ok meta.flX frame.flX acc.fx hfx
      obtain ⟨lfy, hlfy⟩ := intrinsicStep_ok meta.flY frame.flY acc.fy hfy
      obtain ⟨lcx, hlcx⟩ := intrinsicStep_ok meta.cX frame.cX acc.cx hcx
      obtain ⟨lcy, hlcy⟩ := intrinsicStep_ok meta.cY frame.cY acc.cy hcy
      obtain ⟨lh, hlh⟩ := intrinsicStep_ok meta.h frame.h acc.height hh
      obtain ⟨lw, hlw⟩ := intrinsicStep_ok meta.w frame.w acc.width hw
      rw [hlfx, hlfy, hlcx, hlcy, hlh, hlw]
      exact ⟨_, rfl⟩

/-- A filesystem on which no path exists. -/
def fsB : Fs :=
  { fileExists := fun _ => false
    imageSize := fun _ => (100, 100)
    indicesContent := fun _ => none }

/-- C9: the skip paths of the frame loop increment the never-initialized
local counter `num_skipped_image_filenames`, so the moment the loop reaches
a frame whose resolved image file does not exist — or one the indices-file
mapping filters out — it raises `UnboundLocalError` instead of skipping the
frame (first conjunct); and a successful loop collected exactly one image
filename per manifest frame, so on every successful run no frame was
skipped (second conjunct). -/
theorem C9_uninitialized_skip_counter (fs : Fs) (cfg : Config) (meta : Meta)
    (im : Option (List (Str × Str))) (dataDir : Str) :
    (∀ (frame : Frame) (rest : List Frame) (st : Option ℕ) (acc : Collected),
      (fs.fileExists (getFname fs cfg.downscaleFactor st dataDir
          (lastTwoParts frame.filePath) (str "images_")).2 = false ∨
        frameFiltered im (getFname fs cfg.downscaleFactor st dataDir
          (lastTwoParts frame.filePath) (str "images_")).2 = true) →
      collectFrames fs cfg meta im dataDir (frame :: rest) st acc =
        Except.error PErr.unboundLocal) ∧
    (∀ (frames : List Frame) (st : Option ℕ) (acc : Collected)
      (r : Option ℕ × Collected),
      collectFrames fs cfg meta im dataDir frames st acc = Except.ok r →
      r.2.imageFilenames.length = acc.imageFilenames.length + frames.length) :=
  ⟨fun frame rest st acc hskip =>
      collect_skip_unbound fs cfg meta im dataDir frame rest st acc hskip,
    collect_ok_length fs cfg meta im dataDir⟩

/-- Witness for C9 at a concrete run: with the image file absent from the
filesystem, the loop raises the uninitialized-counter error. -/
theorem C9_uninitialized_skip_counter_witness :
    collectFrames fsB cfgA metaA none dirA [frameA "images/f0.png"]
      none {} = Except.error PErr.unboundLocal :=
  (C9_uninitialized_skip_counter fsB cfgA metaA none dirA).1
    (frameA "images/f0.png") [] none {}
    (Or.inl (by with_unfolding_all decide))

/-- A successful frame loop collects one mask (resp. depth) filename per
frame that supplies `mask_path` (resp. `depth_file_path`). -/
theorem collect_ok_mask_depth_count (fs : Fs) (cfg : Config) (meta : Meta)
    (im : Option (List (Str × Str))) (dataDir : Str) :
    ∀ (frames : List Frame) (st : Option ℕ) (acc : Collected)
      (r : Option ℕ × Collected),
      collectFrames fs cfg meta im dataDir frames st acc = Except.ok r →
      r.2.maskFilenames.length = acc.maskFilenames.length +
        frames.countP (fun f => f.maskPath.isSome) ∧
      r.2.depthFilenames.length = acc.depthFilenames.length +
        frames.countP (fun f => f.depthFilePath.isSome) := by
  intro frames
  induction frames with
  | nil =>
    intro st acc r h
    have := Except.ok.inj h
    rw [← this]
    simp
  | cons f rest ih =>
    intro st acc r h
    have hbind : (processFrame fs cfg meta im dataDir st acc f >>= fun q =>
        collectFrames fs cfg meta im dataDir rest q.1 q.2) = Except.ok r := h
    obtain ⟨q, hq, hrest⟩ := exceptM_bind_ok hbind
    obtain ⟨hmr, hdr⟩ := ih q.1 q.2 r hrest
    obtain ⟨_, _, _, hmq, hdq, _⟩ := processFrame_ok_elim hq
    constructor
    · rw [hmr, hmq, List.countP_cons]
      by_cases hm : f.maskPath.isSome <;> simp [hm] <;> omega
    · rw [hdr, hdq, List.countP_cons]
      by_cases hd : f.depthFilePath.isSome <;> simp [hd] <;> omega

/-- Selecting the same index list out of two lists of equal length yields
results of equal length. -/
theorem selectIdx_length_eq {α β : Type} (xs : List α) (ys : List β)
    (idx : List ℕ) (hlen : xs.length = ys.length) :
    (selectIdx xs idx).length = (selectIdx ys idx).length := by
  induction idx with
  | nil => rfl
  | cons i rest ih =>
    unfold selectIdx at ih ⊢
    by_cases hi : i < xs.length
    · have ha := List.get?_eq_get hi
      have hb := List.get?_eq_get (show i < ys.length by omega)
      simp only [List.filterMap_cons]
      rw [ha, hb]
      simpa using ih
    · have ha : xs.get? i = none := List.get?_eq_none.mpr (by omega)
      have hb : ys.get? i = none := List.get?_eq_none.mpr (by omega)
      simp only [List.filterMap_cons]
      rw [ha, hb]
      exact ih

/-- Inversion of the mask/depth length asserts. -/
theorem checkMaskDepth_ok_elim {c : Collected}
    (h : checkMaskDepth c = Except.ok ()) :
    (c.maskFilenames.length = 0 ∨ c.maskFilenames.length = c.imageFilenames.length) ∧
    (c.depthFilenames.length = 0 ∨ c.depthFilenames.length = c.imageFilenames.length) := by
  unfold checkMaskDepth at h
  by_cases h1 : c.maskFilenames.length = 0 ∨ c.maskFilenames.length = c.imageFilenames.length
  · rw [if_pos h1] at h
    by_cases h2 : c.depthFilenames.length = 0 ∨ c.depthFilenames.length = c.imageFilenames.length
    · exact ⟨h1, h2⟩
    · rw [if_neg h2] at h
      exact absurd h (by simp)
  · rw [if_neg h1] at h
    exact absurd h (by simp)

/-- Inversion of a successful finalization: the downscale attribute was set,
the auto-scale divisor was legal, and the output is `finalizeOutputs`. -/
theorem finalize_ok_elim {orient : OrientFn} {cfg : Config} {meta : Meta}
    {c : Collected} {indices : List ℕ} {st : Option ℕ} {o : Outputs}
    (h : finalize orient cfg meta c indices st = Except.ok o) :
    ∃ (d : ℕ) (s1 : ℚ), st = some d ∧
      ((cfg.autoScalePoses = true ∧
          maxAbsTranslation (orient ((meta.orientationOverride).getD cfg.orientationMethod)
            cfg.centerMethod c.poses).1 ≠ 0 ∧
          s1 = 1 / maxAbsTranslation (orient ((meta.orientationOverride).getD cfg.orientationMethod)
            cfg.centerMethod c.poses).1) ∨
        (cfg.autoScalePoses = false ∧ s1 = 1)) ∧
      o = finalizeOutputs orient cfg meta c indices d s1 := by
  simp only [finalize] at h
  obtain ⟨s1, hs1, h⟩ := exceptM_bind_ok h
  obtain ⟨d, hd, h⟩ := exceptM_bind_ok h
  have hst : st = some d := by
    cases hstc : st with
    | none =>
      rw [hstc] at hd
      exact absurd hd (by simp [requireDownscale])
    | some e =>
      rw [hstc] at hd
      have he : e = d := by
        have := Except.ok.inj (show Except.ok e = Except.ok d from hd)
        exact this
      rw [he]
  refine ⟨d, s1, hst, ?_, ?_⟩
  · unfold autoScale1 at hs1
    cases has : cfg.autoScalePoses with
    | true =>
      rw [has] at hs1
      rw [if_pos rfl] at hs1
      by_cases hm : maxAbsTranslation (orient ((meta.orientationOverride).getD cfg.orientationMethod)
          cfg.centerMethod c.poses).1 = 0
      · rw [if_pos hm] at hs1
        exact absurd hs1 (by simp)
      · rw [if_neg hm] at hs1
        have heq : (1 : ℚ) / maxAbsTranslation (orient ((meta.orientationOverride).getD cfg.orientationMethod)
            cfg.centerMethod c.poses).1 = s1 :=
          Except.ok.inj (show Except.ok _ = Except.ok s1 from hs1)
        exact Or.inl ⟨rfl, hm, heq.symm⟩
    | false =>
      rw [has] at hs1
      rw [if_neg (by simp)] at hs1
      have heq : (1 : ℚ) = s1 :=
        Except.ok.inj (show Except.ok _ = Except.ok s1 from hs1)
      exact Or.inr ⟨rfl, heq.symm⟩
  · exact (Except.ok.inj h).symm

/-- C7: when any frame supplies `mask_path` (resp. `depth_file_path`), a
successful parse implies the collected mask (resp. depth) list has exactly
the length of the image list — the asserts of lines 189-200 reject anything
else — and the per-split selected lists keep that equality. -/
theorem C7_mask_depth_lengths (orient : OrientFn) (fs : Fs) (cfg : Config)
    (meta : Meta) (dataDir split : Str) (o : Outputs)
    (h : generateDataparserOutputs orient fs cfg meta dataDir split = Except.ok o) :
    ∃ im r ri,
      loadIndicesMap fs cfg = Except.ok im ∧
      collectFrames fs cfg meta im dataDir meta.frames none {} = Except.ok r ∧
      resolveIndices fs cfg meta im dataDir split r.2.imageFilenames r.1 =
        Except.ok ri ∧
      (r.2.maskFilenames.length = 0 ∨
        r.2.maskFilenames.length = r.2.imageFilenames.length) ∧
      (r.2.depthFilenames.length = 0 ∨
        r.2.depthFilenames.length = r.2.imageFilenames.length) ∧
      ((∃ f ∈ meta.frames, f.maskPath.isSome) →
        r.2.maskFilenames.length = r.2.imageFilenames.length) ∧
      ((∃ f ∈ meta.frames, f.depthFilePath.isSome) →
        r.2.depthFilenames.length = r.2.imageFilenames.length) ∧
      (∀ l, o.maskFilenames = some l → l.length = o.imageFilenames.length) ∧
      (∀ l, o.depthFilenames = some l → l.length = o.imageFilenames.length) := by
  obtain ⟨im, r, ri, him, hr, hchk, hri, hne, hfin⟩ := generate_ok_elim h
  obtain ⟨hmask, hdepth⟩ := checkMaskDepth_ok_elim hchk
  obtain ⟨hmcnt, hdcnt⟩ := collect_ok_mask_depth_count fs cfg meta im dataDir
    meta.frames none {} r hr
  obtain ⟨d, s1, hst, _, ho⟩ := finalize_ok_elim hfin
  refine ⟨im, r, ri, him, hr, hri, hmask, hdepth, ?_, ?_, ?_, ?_⟩
  · intro hex
    rcases hmask with h0 | heq
    · exfalso
      have : 0 < r.2.maskFilenames.length := by
        rw [hmcnt]
        simp only [Collected.maskFilenames]
        have : 0 < List.countP (fun f => f.maskPath.isSome) meta.frames :=
          List.countP_pos.mpr (by simpa using hex)
        simpa using this
      omega
    · exact heq
  · intro hex
    rcases hdepth with h0 | heq
    · exfalso
      have : 0 < r.2.depthFilenames.length := by
        rw [hdcnt]
        simp only [Collected.depthFilenames]
        have : 0 < List.countP (fun f => f.depthFilePath.isSome) meta.frames :=
          List.countP_pos.mpr (by simpa using hex)
        simpa using this
      omega
    · exact heq
  · intro l hl
    rw [ho] at hl ⊢
    simp only [finalizeOutputs] at hl ⊢
    by_cases hcm : 0 < r.2.maskFilenames.length
    · rw [if_pos hcm] at hl
      by_cases hms : 0 < (selectIdx r.2.maskFilenames ri.1).length
      · rw [if_pos hms] at hl
        have hleq : l = selectIdx r.2.maskFilenames ri.1 := (Option.some.inj hl).symm
        rw [hleq]
        exact selectIdx_length_eq _ _ _ (by rcases hmask with h0 | heq; omega; exact heq)
      · rw [if_neg hms] at hl
        exact absurd hl (by simp)
    · rw [if_neg hcm] at hl
      rw [if_neg (by simp)] at hl
      exact absurd hl (by simp)
  · intro l hl
    rw [ho] at hl ⊢
    simp only [finalizeOutputs] at hl ⊢
    by_cases hcm : 0 < r.2.depthFilenames.length
    · rw [if_pos hcm] at hl
      by_cases hms : 0 < (selectIdx r.2.depthFilenames ri.1).length
      · rw [if_pos hms] at hl
        have hleq : l = selectIdx r.2.depthFilenames ri.1 := (Option.some.inj hl).symm
        rw [hleq]
        exact selectIdx_length_eq _ _ _ (by rcases hdepth with h0 | heq; omega; exact heq)
      · rw [if_neg hms] at hl
        exact absurd hl (by simp)
    · rw [if_neg hcm] at hl
      rw [if_neg (by simp)] at hl
      exact absurd hl (by simp)

/-- A frame carrying mask and depth paths. -/
def frameM : Frame :=
  { filePath := str "images/f0.png"
    transformMatrix := [[1, 0, 0, 1], [0, 1, 0, 2], [0, 0, 1, 3], [0, 0, 0, 1]]
    maskPath := some (str "masks/f0.png")
    depthFilePath := some (str "depths/f0.png") }

/-- A single-frame manifest with fixed intrinsics whose frame has mask and
depth files. -/
def metaM : Meta :=
  { frames := [frameM]
    flX := some 100, flY := some 100, cX := some 50, cY := some 50
    h := some 100, w := some 100, k1 := some 0 }

/-- The outputs of the parser on `metaM` for split `train`. -/
def oM : Outputs :=
  { imageFilenames := [str "d/images/f0.png"]
    cameras :=
      { fx := IntrinVal.fixed 100, fy := IntrinVal.fixed 100
        cx := IntrinVal.fixed 50, cy := IntrinVal.fixed 50
        height := IntrinVal.fixed 100, width := IntrinVal.fixed 100
        distortionParams := IntrinVal.fixed ⟨0, 0, 0, 0, 0, 0⟩
        cameraToWorlds := [[[1, 0, 0, 1], [0, 1, 0, 2], [0, 0, 1, 3]]]
        rescaleFactor := 1 }
    maskFilenames := some [str "d/masks/f0.png"]
    depthFilenames := some [str "d/depths/f0.png"]
    dataparserScale := 1
    dataparserTransform := [[1, 0, 0, 0], [0, 1, 0, 0], [0, 0, 1, 0], [0, 0, 0, 1]] }

/-- Witness for C7 at a concrete run with one mask and one depth file. -/
theorem C7_mask_depth_lengths_witness :
    ∃ im r ri,
      loadIndicesMap fsA cfgA = Except.ok im ∧
      collectFrames fsA cfgA metaM im dirA metaM.frames none {} = Except.ok r ∧
      resolveIndices fsA cfgA metaM im dirA (str "train") r.2.imageFilenames r.1 =
        Except.ok ri ∧
      (r.2.maskFilenames.length = 0 ∨
        r.2.maskFilenames.length = r.2.imageFilenames.length) ∧
      (r.2.depthFilenames.length = 0 ∨
        r.2.depthFilenames.length = r.2.imageFilenames.length) ∧
      ((∃ f ∈ metaM.frames, f.maskPath.isSome) →
        r.2.maskFilenames.length = r.2.imageFilenames.length) ∧
      ((∃ f ∈ metaM.frames, f.depthFilePath.isSome) →
        r.2.depthFilenames.length = r.2.imageFilenames.length) ∧
      (∀ l, oM.maskFilenames = some l → l.length = oM.imageFilenames.length) ∧
      (∀ l, oM.depthFilenames = some l → l.length = oM.imageFilenames.length) :=
  C7_mask_depth_lengths idOrient fsA cfgA metaM dirA (str "train") oM
    (by with_unfolding_all decide)

/-- C3: pose orientation, centering and auto-scaling are computed from all
collected frames before any split filtering: two successful runs on the same
manifest with different requested splits return the same
`dataparser_transform` and `dataparser_scale`; the scale is the reciprocal
of the largest absolute translation component over all (oriented) poses
times the configured factors; and the per-split camera poses are selected
from the globally normalized pose list only after that normalization. -/
theorem C3_normalization_global (orient : OrientFn) (fs : Fs) (cfg : Config)
    (meta : Meta) (dataDir sA sB : Str) (o1 o2 : Outputs)
    (im : Option (List (Str × Str))) (r : Option ℕ × Collected)
    (riA : List ℕ × Option ℕ)
    (him : loadIndicesMap fs cfg = Except.ok im)
    (hr : collectFrames fs cfg meta im dataDir meta.frames none {} = Except.ok r)
    (hriA : resolveIndices fs cfg meta im dataDir sA r.2.imageFilenames r.1 =
      Except.ok riA)
    (h1 : generateDataparserOutputs orient fs cfg meta dataDir sA = Except.ok o1)
    (h2 : generateDataparserOutputs orient fs cfg meta dataDir sB = Except.ok o2) :
    o1.dataparserTransform = o2.dataparserTransform ∧
    o1.dataparserScale = o2.dataparserScale ∧
    o1.dataparserScale =
      (if cfg.autoScalePoses = true then
        1 / maxAbsTranslation (orient ((meta.orientationOverride).getD cfg.orientationMethod)
          cfg.centerMethod r.2.poses).1
      else 1) * cfg.scaleFactor * ((meta.appliedScale).getD 1) ∧
    o1.cameras.cameraToWorlds =
      (selectIdx ((orient ((meta.orientationOverride).getD cfg.orientationMethod)
          cfg.centerMethod r.2.poses).1.map
        (scalePose ((if cfg.autoScalePoses = true then
          1 / maxAbsTranslation (orient ((meta.orientationOverride).getD cfg.orientationMethod)
            cfg.centerMethod r.2.poses).1
        else 1) * cfg.scaleFactor))) riA.1).map (fun p => p.take 3) := by
  obtain ⟨im1, r1, ri1, him1, hr1, hchk1, hri1, hne1, hfin1⟩ := generate_ok_elim h1
  obtain ⟨im2, r2, ri2, him2, hr2, hchk2, hri2, hne2, hfin2⟩ := generate_ok_elim h2
  have heim1 : im1 = im := Except.ok.inj (him1.symm.trans him)
  rw [heim1] at hr1
  have her1 : r1 = r := Except.ok.inj (hr1.symm.trans hr)
  rw [heim1, her1] at hri1
  rw [her1] at hfin1
  have heri1 : ri1 = riA := Except.ok.inj (hri1.symm.trans hriA)
  rw [heri1] at hfin1
  have heim2 : im2 = im := Except.ok.inj (him2.symm.trans him)
  rw [heim2] at hr2
  have her2 : r2 = r := Except.ok.inj (hr2.symm.trans hr)
  rw [her2] at hfin2
  obtain ⟨d1, s1a, hst1, hcond1, ho1⟩ := finalize_ok_elim hfin1
  obtain ⟨d2, s1b, hst2, hcond2, ho2⟩ := finalize_ok_elim hfin2
  have hs1 : s1a = (if cfg.autoScalePoses = true then
      1 / maxAbsTranslation (orient ((meta.orientationOverride).getD cfg.orientationMethod)
        cfg.centerMethod r.2.poses).1
    else 1) := by
    rcases hcond1 with ⟨hat, _, hs⟩ | ⟨haf, hs⟩
    · rw [if_pos hat, hs]
    · rw [if_neg (by rw [haf]; exact Bool.false_ne_true), hs]
  have hs2 : s1b = (if cfg.autoScalePoses = true then
      1 / maxAbsTranslation (orient ((meta.orientationOverride).getD cfg.orientationMethod)
        cfg.centerMethod r.2.poses).1
    else 1) := by
    rcases hcond2 with ⟨hat, _, hs⟩ | ⟨haf, hs⟩
    · rw [if_pos hat, hs]
    · rw [if_neg (by rw [haf]; exact Bool.false_ne_true), hs]
  have hsab : s1a = s1b := hs1.trans hs2.symm
  refine ⟨?_, ?_, ?_, ?_⟩
  · rw [ho1, ho2]
    simp only [finalizeOutputs]
  · rw [ho1, ho2]
    simp only [finalizeOutputs]
    rw [hsab]
  · rw [ho1]
    simp only [finalizeOutputs]
    rw [hs1]
    cases has : meta.appliedScale with
    | none => simp
    | some s => simp
  · rw [ho1]
    simp only [finalizeOutputs]
    rw [hs1]

/-- A config with an explicit downscale factor of 1 and auto scaling left
on (the default). -/
def cfgC : Config := { downscaleFactor := some 1 }

/-- The frame loop result on `metaA`. -/
def rA : Option ℕ × Collected :=
  (some 1, { imageFilenames := [str "d/images/f0.png"]
             poses := [[[1, 0, 0, 1], [0, 1, 0, 2], [0, 0, 1, 3], [0, 0, 0, 1]]] })

/-- The parser outputs on `metaA` under `cfgC` (auto scale 1/3). -/
def oC : Outputs :=
  { imageFilenames := [str "d/images/f0.png"]
    cameras :=
      { fx := IntrinVal.fixed 100, fy := IntrinVal.fixed 100
        cx := IntrinVal.fixed 50, cy := IntrinVal.fixed 50
        height := IntrinVal.fixed 100, width := IntrinVal.fixed 100
        distortionParams := IntrinVal.fixed ⟨0, 0, 0, 0, 0, 0⟩
        cameraToWorlds := [[[1, 0, 0, 1/3], [0, 1, 0, 2/3], [0, 0, 1, 1]]]
        rescaleFactor := 1 }
    maskFilenames := none
    depthFilenames := none
    dataparserScale := 1/3
    dataparserTransform := [[1, 0, 0, 0], [0, 1, 0, 0], [0, 0, 1, 0], [0, 0, 0, 1]] }

/-- Witness for C3 at a concrete run: splits `train` and `all` of the same
one-frame manifest share the transform and the auto scale 1/3. -/
theorem C3_normalization_global_witness :
    oC.dataparserTransform = oC.dataparserTransform ∧
    oC.dataparserScale = oC.dataparserScale ∧
    oC.dataparserScale =
      (if cfgC.autoScalePoses = true then
        1 / maxAbsTranslation (idOrient ((metaA.orientationOverride).getD cfgC.orientationMethod)
          cfgC.centerMethod rA.2.poses).1
      else 1) * cfgC.scaleFactor * ((metaA.appliedScale).getD 1) ∧
    oC.cameras.cameraToWorlds =
      (selectIdx ((idOrient ((metaA.orientationOverride).getD cfgC.orientationMethod)
          cfgC.centerMethod rA.2.poses).1.map
        (scalePose ((if cfgC.autoScalePoses = true then
          1 / maxAbsTranslation (idOrient ((metaA.orientationOverride).getD cfgC.orientationMethod)
            cfgC.centerMethod rA.2.poses).1
        else 1) * cfgC.scaleFactor))) ([0], (some 1 : Option ℕ)).1).map (fun p => p.take 3) :=
  C3_normalization_global idOrient fsA cfgC metaA dirA (str "train") (str "all")
    oC oC none rA ([0], some 1)
    (by with_unfolding_all decide)
    (by with_unfolding_all decide)
    (by with_unfolding_all decide)
    (by with_unfolding_all decide)
    (by with_unfolding_all decide)

/-- A successful frame loop saw every non-fixed intrinsic supplied by every
frame (the per-frame asserts of lines 143-160 passed). -/
theorem collect_ok_frames_intrinsics (fs : Fs) (cfg : Config) (meta : Meta)
    (im : Option (List (Str × Str))) (dataDir : Str) :
    ∀ (frames : List Frame) (st : Option ℕ) (acc : Collected)
      (r : Option ℕ × Collected),
      collectFrames fs cfg meta im dataDir frames st acc = Except.ok r →
      ∀ f ∈ frames,
        (meta.flX = none → f.flX.isSome) ∧ (meta.flY = none → f.flY.isSome) ∧
        (meta.cX = none → f.cX.isSome) ∧ (meta.cY = none → f.cY.isSome) ∧
        (meta.h = none → f.h.isSome) ∧ (meta.w = none → f.w.isSome) := by
  intro frames
  induction frames with
  | nil =>
    intro st acc r _ f hf
    exact absurd hf (by simp)
  | cons g rest ih =>
    intro st acc r h f hf
    have hbind : (processFrame fs cfg meta im dataDir st acc g >>= fun q =>
        collectFrames fs cfg meta im dataDir rest q.1 q.2) = Except.ok r := h
    obtain ⟨q, hq, hrest⟩ := exceptM_bind_ok hbind
    rcases List.mem_cons.mp hf with rfl | hf'
    · obtain ⟨_, _, _, _, _, hds⟩ := processFrame_ok_elim hq
      exact hds
    · exact ih q.1 q.2 r hrest f hf'

/-- C6 (amended): for the six intrinsics, a manifest-level value is used as
one fixed value for all frames, and otherwise every frame must supply the
parameter (the parser raises when one lacks it) and the per-frame values
selected by the split indices are used; distortion parameters follow the
same fixed-vs-per-frame duality, except that missing per-frame distortion
components default to `0.0` instead of raising (and manifest-level
fixedness is triggered by any of `k1 k2 k3 p1 p2`). -/
theorem C6_intrinsics_duality (orient : OrientFn) (fs : Fs) (cfg : Config)
    (meta : Meta) (dataDir split : Str) (o : Outputs)
    (h : generateDataparserOutputs orient fs cfg meta dataDir split = Except.ok o) :
    ∃ im r ri,
      loadIndicesMap fs cfg = Except.ok im ∧
      collectFrames fs cfg meta im dataDir meta.frames none {} = Except.ok r ∧
      resolveIndices fs cfg meta im dataDir split r.2.imageFilenames r.1 =
        Except.ok ri ∧
      o.cameras.fx = (match meta.flX with
        | some v => IntrinVal.fixed v
        | none => IntrinVal.perFrame (selectIdx r.2.fx ri.1)) ∧
      o.cameras.fy = (match meta.flY with
        | some v => IntrinVal.fixed v
        | none => IntrinVal.perFrame (selectIdx r.2.fy ri.1)) ∧
      o.cameras.cx = (match meta.cX with
        | some v => IntrinVal.fixed v
        | none => IntrinVal.perFrame (selectIdx r.2.cx ri.1)) ∧
      o.cameras.cy = (match meta.cY with
        | some v => IntrinVal.fixed v
        | none => IntrinVal.perFrame (selectIdx r.2.cy ri.1)) ∧
      o.cameras.height = (match meta.h with
        | some v => IntrinVal.fixed v
        | none => IntrinVal.perFrame (selectIdx r.2.height ri.1)) ∧
      o.cameras.width = (match meta.w with
        | some v => IntrinVal.fixed v
        | none => IntrinVal.perFrame (selectIdx r.2.width ri.1)) ∧
      o.cameras.distortionParams = (if distortFixed meta then
        IntrinVal.fixed (metaDistortion meta)
      else IntrinVal.perFrame (selectIdx r.2.dist ri.1)) ∧
      (∀ f ∈ meta.frames,
        (meta.flX = none → f.flX.isSome) ∧ (meta.flY = none → f.flY.isSome) ∧
        (meta.cX = none → f.cX.isSome) ∧ (meta.cY = none → f.cY.isSome) ∧
        (meta.h = none → f.h.isSome) ∧ (meta.w = none → f.w.isSome)) := by
  obtain ⟨im, r, ri, him, hr, hchk, hri, hne, hfin⟩ := generate_ok_elim h
  obtain ⟨d, s1, hst, hcond, ho⟩ := finalize_ok_elim hfin
  refine ⟨im, r, ri, him, hr, hri, ?_, ?_, ?_, ?_, ?_, ?_, ?_,
    collect_ok_frames_intrinsics fs cfg meta im dataDir meta.frames none {} r hr⟩
  · rw [ho]; simp only [finalizeOutputs]
  · rw [ho]; simp only [finalizeOutputs]
  · rw [ho]; simp only [finalizeOutputs]
  · rw [ho]; simp only [finalizeOutputs]
  · rw [ho]; simp only [finalizeOutputs]
  · rw [ho]; simp only [finalizeOutputs]
  · rw [ho]; simp only [finalizeOutputs]

/-- A one-frame manifest fixing the six intrinsics but carrying no
distortion key anywhere (neither top-level nor per-frame). -/
def metaD : Meta :=
  { frames := [frameA "images/f0.png"]
    flX := some 100, flY := some 100, cX := some 50, cY := some 50
    h := some 100, w := some 100 }

/-- The parser outputs on `metaD` for split `train`: per-frame distortion
defaulted to all zeros. -/
def oD : Outputs :=
  { imageFilenames := [str "d/images/f0.png"]
    cameras :=
      { fx := IntrinVal.fixed 100, fy := IntrinVal.fixed 100
        cx := IntrinVal.fixed 50, cy := IntrinVal.fixed 50
        height := IntrinVal.fixed 100, width := IntrinVal.fixed 100
        distortionParams := IntrinVal.perFrame [⟨0, 0, 0, 0, 0, 0⟩]
        cameraToWorlds := [[[1, 0, 0, 1], [0, 1, 0, 2], [0, 0, 1, 3]]]
        rescaleFactor := 1 }
    maskFilenames := none
    depthFilenames := none
    dataparserScale := 1
    dataparserTransform := [[1, 0, 0, 0], [0, 1, 0, 0], [0, 0, 1, 0], [0, 0, 0, 1]] }

/-- Counterexample to C6 as stated: the manifest `metaD` defines no
distortion parameter at top level and its only frame defines none per-frame,
yet the parser returns successfully (with all distortion components
defaulted to `0.0`) instead of raising. -/
theorem C6_distortion_counterexample :
    metaD.k1 = none ∧ metaD.k2 = none ∧ metaD.k3 = none ∧ metaD.k4 = none ∧
    metaD.p1 = none ∧ metaD.p2 = none ∧
    (∀ f ∈ metaD.frames, f.k1 = none ∧ f.k2 = none ∧ f.k3 = none ∧
      f.k4 = none ∧ f.p1 = none ∧ f.p2 = none) ∧
    generateDataparserOutputs idOrient fsA cfgA metaD dirA (str "train") =
      Except.ok oD := by
  with_unfolding_all decide

/-- Witness for the amended C6 on the `metaD` run. -/
theorem C6_intrinsics_duality_witness :
    ∃ im r ri,
      loadIndicesMap fsA cfgA = Except.ok im ∧
      collectFrames fsA cfgA metaD im dirA metaD.frames none {} = Except.ok r ∧
      resolveIndices fsA cfgA metaD im dirA (str "train") r.2.imageFilenames r.1 =
        Except.ok ri ∧
      oD.cameras.fx = (match metaD.flX with
        | some v => IntrinVal.fixed v
        | none => IntrinVal.perFrame (selectIdx r.2.fx ri.1)) ∧
      oD.cameras.fy = (match metaD.flY with
        | some v => IntrinVal.fixed v
        | none => IntrinVal.perFrame (selectIdx r.2.fy ri.1)) ∧
      oD.cameras.cx = (match metaD.cX with
        | some v => IntrinVal.fixed v
        | none => IntrinVal.perFrame (selectIdx r.2.cx ri.1)) ∧
      oD.cameras.cy = (match metaD.cY with
        | some v => IntrinVal.fixed v
        | none => IntrinVal.perFrame (selectIdx r.2.cy ri.1)) ∧
      oD.cameras.height = (match metaD.h with
        | some v => IntrinVal.fixed v
        | none => IntrinVal.perFrame (selectIdx r.2.height ri.1)) ∧
      oD.cameras.width = (match metaD.w with
        | some v => IntrinVal.fixed v
        | none => IntrinVal.perFrame (selectIdx r.2.width ri.1)) ∧
      oD.cameras.distortionParams = (if distortFixed metaD then
        IntrinVal.fixed (metaDistortion metaD)
      else IntrinVal.perFrame (selectIdx r.2.dist ri.1)) ∧
      (∀ f ∈ metaD.frames,
        (metaD.flX = none → f.flX.isSome) ∧ (metaD.flY = none → f.flY.isSome) ∧
        (metaD.cX = none → f.cX.isSome) ∧ (metaD.cY = none → f.cY.isSome) ∧
        (metaD.h = none → f.h.isSome) ∧ (metaD.w = none → f.w.isSome)) :=
  C6_intrinsics_duality idOrient fsA cfgA metaD dirA (str "train") oD
    (by with_unfolding_all decide)

/-- Consecutive linspace samples are strictly increasing when the step
`(N-1)/(n-1)` is at least one, i.e. when `n ≤ N`. -/
theorem linspace_step_lt (N n i : ℕ) (hnN : n ≤ N) (h2 : 2 ≤ n) :
    i * (N - 1) / (n - 1) < (i + 1) * (N - 1) / (n - 1) := by
  have hd : 0 < n - 1 := by omega
  have hstep : (i * (N - 1) + (n - 1)) / (n - 1) = i * (N - 1) / (n - 1) + 1 :=
    Nat.add_div_right _ hd
  have hle : i * (N - 1) + (n - 1) ≤ (i + 1) * (N - 1) := by
    have h1 : (i + 1) * (N - 1) = i * (N - 1) + (N - 1) := by ring
    omega
  calc i * (N - 1) / (n - 1) < i * (N - 1) / (n - 1) + 1 := Nat.lt_succ_self _
    _ = (i * (N - 1) + (n - 1)) / (n - 1) := hstep.symm
    _ ≤ (i + 1) * (N - 1) / (n - 1) := Nat.div_le_div_right hle

/-- Linspace samples are strictly monotone in the sample number when
`n ≤ N`. -/
theorem linspace_strictMono (N n : ℕ) (hnN : n ≤ N) (h2 : 2 ≤ n) :
    ∀ i j, i < j → i * (N - 1) / (n - 1) < j * (N - 1) / (n - 1) := by
  intro i j hij
  induction j with
  | zero => omega
  | succ k ih =>
    rcases Nat.lt_succ_iff_lt_or_eq.mp hij with hik | rfl
    · exact lt_of_lt_of_le (ih hik)
        (Nat.div_le_div_right (Nat.mul_le_mul_right _ (by omega)))
    · exact linspace_step_lt N n i hnN h2

/-- `linspaceInt` produces exactly `n` samples. -/
theorem linspaceInt_length (N n : ℕ) : (linspaceInt N n).length = n := by
  unfold linspaceInt
  by_cases h0 : n = 0
  · simp [h0]
  · by_cases h1 : n = 1
    · simp [h0, h1]
    · simp [h0, h1]

/-- `linspaceInt` has no duplicate samples when `n ≤ N`. -/
theorem linspaceInt_nodup (N n : ℕ) (hnN : n ≤ N) : (linspaceInt N n).Nodup := by
  unfold linspaceInt
  by_cases h0 : n = 0
  · simp [h0]
  · by_cases h1 : n = 1
    · simp [h0, h1]
    · rw [if_neg h0, if_neg h1]
      have h2 : 2 ≤ n := by omega
      refine List.Nodup.map_on ?_ (List.nodup_range n)
      intro i hi j hj hij
      by_contra hne
      rcases Nat.lt_or_ge i j with hlt | hge
      · exact absurd hij (Nat.ne_of_lt (linspace_strictMono N n hnN h2 i j hlt))
      · have hlt : j < i := by omega
        exact absurd hij.symm (Nat.ne_of_lt (linspace_strictMono N n hnN h2 j i hlt))

/-- Every linspace sample is below `N` when `1 ≤ n ≤ N`. -/
theorem linspaceInt_mem_lt (N n : ℕ) (hnN : n ≤ N) (hn1 : 1 ≤ n) :
    ∀ x ∈ linspaceInt N n, x < N := by
  intro x hx
  unfold linspaceInt at hx
  by_cases h0 : n = 0
  · omega
  · by_cases h1 : n = 1
    · rw [if_neg h0, if_pos h1] at hx
      have : x = 0 := by simpa using hx
      omega
    · rw [if_neg h0, if_neg h1] at hx
      obtain ⟨i, hi, hfx⟩ := List.mem_map.mp hx
      have hi' : i < n := List.mem_range.mp hi
      have h2 : 2 ≤ n := by omega
      have hd : 0 < n - 1 := by omega
      have hub : i * (N - 1) / (n - 1) ≤ (n - 1) * (N - 1) / (n - 1) :=
        Nat.div_le_div_right (Nat.mul_le_mul_right _ (by omega))
      rw [Nat.mul_div_cancel_left _ hd] at hub
      omega

/-- The first linspace sample is `0`. -/
theorem linspaceInt_head (N n : ℕ) (hn1 : 1 ≤ n) :
    (linspaceInt N n).head? = some 0 := by
  unfold linspaceInt
  by_cases h0 : n = 0
  · omega
  · by_cases h1 : n = 1
    · simp [h0, h1]
    · rw [if_neg h0, if_neg h1]
      obtain ⟨m, rfl⟩ : ∃ m, n = m + 1 := ⟨n - 1, by omega⟩
      rw [List.range_succ_eq_map]
      simp

/-- The final linspace sample is `N - 1` when at least two are taken. -/
theorem linspaceInt_getLast (N n : ℕ) (h2 : 2 ≤ n) :
    (linspaceInt N n).getLast? = some (N - 1) := by
  unfold linspaceInt
  rw [if_neg (by omega), if_neg (by omega)]
  obtain ⟨m, rfl⟩ : ∃ m, n = m + 1 := ⟨n - 1, by omega⟩
  rw [List.range_succ, List.map_append, List.map_singleton]
  rw [List.getLast?_concat]
  have hm : 0 < m := by omega
  simp only [Nat.add_sub_cancel]
  rw [Nat.mul_div_cancel_left _ hm]

/-- `np.setdiff1d(np.arange N, sub)` as an order-preserving filter has
length `N - sub.length` when `sub` is duplicate-free and within range. -/
theorem filter_not_mem_length (N : ℕ) (sub : List ℕ) (hnd : sub.Nodup)
    (hsub : ∀ x ∈ sub, x < N) :
    ((List.range N).filter (fun i => i ∉ sub)).length = N - sub.length := by
  have h1 : ((List.range N).filter (fun i => i ∈ sub)).length = sub.length := by
    have hperm : List.Perm ((List.range N).filter (fun i => i ∈ sub)) sub := by
      apply (List.perm_ext_iff_of_nodup (List.Nodup.filter _ (List.nodup_range N)) hnd).mpr
      intro a
      simp only [List.mem_filter, List.mem_range, decide_eq_true_eq]
      constructor
      · rintro ⟨_, ha⟩
        exact ha
      · intro ha
        exact ⟨hsub a ha, ha⟩
    exact hperm.length_eq
  have h2 : (List.range N).length =
      ((List.range N).filter (fun i => decide (i ∈ sub))).length +
        ((List.range N).filter (fun a => !(decide (a ∈ sub)))).length :=
    List.length_eq_length_filter_add (fun i => decide (i ∈ sub))
  have hcong : (List.range N).filter (fun a => !(decide (a ∈ sub))) =
      (List.range N).filter (fun i => i ∉ sub) := by
    apply List.filter_congr
    intro x _
    simp
  rw [hcong] at h2
  have hN : (List.range N).length = N := List.length_range N
  omega

/-- The fractional split evaluated on the four legal split names, for any
fraction between 0 and 1. -/
theorem fractionalSplit_eq (cfg : Config) (N : ℕ)
    (hf0 : 0 ≤ cfg.trainSplitFraction) (hf1 : cfg.trainSplitFraction ≤ 1) :
    let n := (ratCeil ((N : ℚ) * cfg.trainSplitFraction)).toNat
    let iTrain := linspaceInt N n
    let iEval := (List.range N).filter (fun i => i ∉ iTrain)
    n ≤ N ∧ (n : ℤ) = ⌈(N : ℚ) * cfg.trainSplitFraction⌉ ∧
    fractionalSplit cfg (str "train") N = Except.ok iTrain ∧
    fractionalSplit cfg (str "val") N = Except.ok iEval ∧
    fractionalSplit cfg (str "test") N = Except.ok iEval ∧
    fractionalSplit cfg (str "all") N = Except.ok (List.range N) := by
  intro n iTrain iEval
  have hnn : (0 : ℤ) ≤ ratCeil ((N : ℚ) * cfg.trainSplitFraction) := by
    rw [ratCeil_eq_ceil]
    exact Int.ceil_nonneg (mul_nonneg (Nat.cast_nonneg N) hf0)
  have hle : ratCeil ((N : ℚ) * cfg.trainSplitFraction) ≤ (N : ℤ) := by
    rw [ratCeil_eq_ceil]
    calc ⌈(N : ℚ) * cfg.trainSplitFraction⌉ ≤ ⌈(N : ℚ)⌉ :=
        Int.ceil_le_ceil (mul_le_of_le_one_right (Nat.cast_nonneg N) hf1)
      _ = (N : ℤ) := Int.ceil_natCast N
  have hnN : n ≤ N := by
    show (ratCeil ((N : ℚ) * cfg.trainSplitFraction)).toNat ≤ N
    have h := Int.toNat_le_toNat hle
    simpa using h
  have hcast : (n : ℤ) = ratCeil ((N : ℚ) * cfg.trainSplitFraction) :=
    Int.toNat_of_nonneg hnn
  have hlt : ∀ x ∈ iTrain, x < N := by
    by_cases hn0 : n = 0
    · intro x hx
      rw [show iTrain = linspaceInt N n from rfl, hn0] at hx
      simp [linspaceInt] at hx
    · exact linspaceInt_mem_lt N n hnN (by omega)
  have hnd : iTrain.Nodup := linspaceInt_nodup N n hnN
  have hevlen : iEval.length = N - n := by
    have := filter_not_mem_length N iTrain hnd hlt
    rw [linspaceInt_length] at this
    exact this
  have hcheck : ¬ ((iEval.length : ℤ) ≠
      (N : ℤ) - ratCeil ((N : ℚ) * cfg.trainSplitFraction)) := by
    rw [hevlen, ← hcast]
    push_neg
    omega
  refine ⟨hnN, by rw [hcast, ratCeil_eq_ceil], ?_, ?_, ?_, ?_⟩
  · unfold fractionalSplit
    rw [if_neg (by omega), if_neg hcheck, if_pos rfl]
  · unfold fractionalSplit
    rw [if_neg (by omega), if_neg hcheck, if_neg (by decide),
      if_pos (Or.inl rfl)]
  · unfold fractionalSplit
    rw [if_neg (by omega), if_neg hcheck, if_neg (by decide),
      if_pos (Or.inr rfl)]
  · unfold fractionalSplit
    rw [if_neg (by omega), if_neg hcheck, if_neg (by decide),
      if_neg (by decide), if_pos rfl]

/-- With no indices file and no `{split}_filenames` lists, split resolution
is exactly the fractional split (state unchanged). -/
theorem resolveIndices_fractional (fs : Fs) (cfg : Config) (meta : Meta)
    (dataDir split : Str) (imgs : List Str) (st : Option ℕ)
    (h1 : meta.trainFilenames = none) (h2 : meta.valFilenames = none)
    (h3 : meta.testFilenames = none) (h4 : meta.allFilenames = none) :
    resolveIndices fs cfg meta none dataDir split imgs st =
      (fractionalSplit cfg split imgs.length).map (fun is => (is, st)) := by
  have hsf : Meta.splitFilenames meta split = none := by
    unfold Meta.splitFilenames
    rw [h1, h2, h3, h4]
    by_cases ha : split = str "train"
    · simp [ha]
    · by_cases hb : split = str "val"
      · simp [ha, hb]
      · by_cases hc : split = str "test"
        · simp [ha, hb, hc]
        · by_cases hd : split = str "all"
          · simp [ha, hb, hc, hd]
          · simp [ha, hb, hc, hd]
  simp only [resolveIndices, hsf, h1, h2, h3, h4]
  simp only [Option.isSome_none, Bool.or_self, Bool.false_eq_true, if_false]
  cases hfs : fractionalSplit cfg split imgs.length with
  | error e => rfl
  | ok is => rfl

/-- C2 (amended): with no indices file and no explicit split lists, the
parser resolves split `train` to the `ceil(N * train_split_fraction)`
integer linspace samples over `[0, N-1]` (pairwise distinct, in range,
starting at index 0, and ending at index `N-1` whenever at least two
training indices are selected), splits `val` and `test` to exactly the
complementary `N - ceil(N * train_split_fraction)` indices, and split `all`
to all `N` indices. -/
theorem C2_fractional_split_properties (fs : Fs) (cfg : Config) (meta : Meta)
    (dataDir : Str) (imgs : List Str) (st : Option ℕ)
    (hf0 : 0 ≤ cfg.trainSplitFraction) (hf1 : cfg.trainSplitFraction ≤ 1)
    (h1 : meta.trainFilenames = none) (h2 : meta.valFilenames = none)
    (h3 : meta.testFilenames = none) (h4 : meta.allFilenames = none) :
    let N := imgs.length
    let n := (ratCeil ((N : ℚ) * cfg.trainSplitFraction)).toNat
    let iTrain := linspaceInt N n
    let iEval := (List.range N).filter (fun i => i ∉ iTrain)
    (n : ℤ) = ⌈(N : ℚ) * cfg.trainSplitFraction⌉ ∧
    resolveIndices fs cfg meta none dataDir (str "train") imgs st =
      Except.ok (iTrain, st) ∧
    resolveIndices fs cfg meta none dataDir (str "val") imgs st =
      Except.ok (iEval, st) ∧
    resolveIndices fs cfg meta none dataDir (str "test") imgs st =
      Except.ok (iEval, st) ∧
    resolveIndices fs cfg meta none dataDir (str "all") imgs st =
      Except.ok (List.range N, st) ∧
    iTrain.length = n ∧ iTrain.Nodup ∧ (∀ x ∈ iTrain, x < N) ∧
    iEval.length = N - n ∧
    (1 ≤ n → iTrain.head? = some 0) ∧
    (2 ≤ n → iTrain.getLast? = some (N - 1)) := by
  intro N n iTrain iEval
  obtain ⟨hnN, hceil, htr, hva, hte, hal⟩ := fractionalSplit_eq cfg N hf0 hf1
  have hlt : ∀ x ∈ iTrain, x < N := by
    by_cases hn0 : n = 0
    · intro x hx
      rw [show iTrain = linspaceInt N n from rfl, hn0] at hx
      simp [linspaceInt] at hx
    · exact linspaceInt_mem_lt N n hnN (by omega)
  have hnd : iTrain.Nodup := linspaceInt_nodup N n hnN
  have hevlen : iEval.length = N - n := by
    have := filter_not_mem_length N iTrain hnd hlt
    rw [linspaceInt_length] at this
    exact this
  refine ⟨hceil, ?_, ?_, ?_, ?_, linspaceInt_length N n, hnd, hlt, hevlen,
    fun hn1 => linspaceInt_head N n hn1, fun hn2 => linspaceInt_getLast N n hn2⟩
  · rw [resolveIndices_fractional fs cfg meta dataDir (str "train") imgs st h1 h2 h3 h4,
      htr]
    rfl
  · rw [resolveIndices_fractional fs cfg meta dataDir (str "val") imgs st h1 h2 h3 h4,
      hva]
    rfl
  · rw [resolveIndices_fractional fs cfg meta dataDir (str "test") imgs st h1 h2 h3 h4,
      hte]
    rfl
  · rw [resolveIndices_fractional fs cfg meta dataDir (str "all") imgs st h1 h2 h3 h4,
      hal]
    rfl

/-- A config with downscale factor 1 and a train fraction of one half. -/
def cfgHalf : Config := { downscaleFactor := some 1, trainSplitFraction := 1/2 }

/-- Counterexample to C2 as stated: with two usable frames and a train
fraction of one half, exactly `ceil(2 * 1/2) = 1` training index is
selected, namely `[0]`, whose last entry is `0` and not `N - 1 = 1`. -/
theorem C2_last_index_counterexample :
    (ratCeil ((2 : ℚ) * cfgHalf.trainSplitFraction)).toNat = 1 ∧
    resolveIndices fsA cfgHalf metaA none dirA (str "train")
      [str "a", str "b"] (some 1) = Except.ok ([0], some 1) ∧
    ([0] : List ℕ).getLast? = some 0 ∧ (2 : ℕ) - 1 = 1 ∧ (0 : ℕ) ≠ 1 := by
  with_unfolding_all decide

/-- Witness for the amended C2 on a three-image run with fraction 1/2:
train gets `[0, 2]`, val and test get `[1]`, all gets `[0, 1, 2]`. -/
theorem C2_fractional_split_properties_witness :
    let N := [str "a", str "b", str "c"].length
    let n := (ratCeil ((N : ℚ) * cfgHalf.trainSplitFraction)).toNat
    let iTrain := linspaceInt N n
    let iEval := (List.range N).filter (fun i => i ∉ iTrain)
    (n : ℤ) = ⌈(N : ℚ) * cfgHalf.trainSplitFraction⌉ ∧
    resolveIndices fsA cfgHalf metaA none dirA (str "train")
      [str "a", str "b", str "c"] (some 1) = Except.ok (iTrain, some 1) ∧
    resolveIndices fsA cfgHalf metaA none dirA (str "val")
      [str "a", str "b", str "c"] (some 1) = Except.ok (iEval, some 1) ∧
    resolveIndices fsA cfgHalf metaA none dirA (str "test")
      [str "a", str "b", str "c"] (some 1) = Except.ok (iEval, some 1) ∧
    resolveIndices fsA cfgHalf metaA none dirA (str "all")
      [str "a", str "b", str "c"] (some 1) = Except.ok (List.range N, some 1) ∧
    iTrain.length = n ∧ iTrain.Nodup ∧ (∀ x ∈ iTrain, x < N) ∧
    iEval.length = N - n ∧
    (1 ≤ n → iTrain.head? = some 0) ∧
    (2 ≤ n → iTrain.getLast? = some (N - 1)) :=
  C2_fractional_split_properties fsA cfgHalf metaA dirA
    [str "a", str "b", str "c"] (some 1)
    (by norm_num [Config.trainSplitFraction, cfgHalf])
    (by norm_num [Config.trainSplitFraction, cfgHalf])
    rfl rfl rfl rfl

/-- A second frame with its own pose. -/
def frameB : Frame :=
  { filePath := str "images/f1.png"
    transformMatrix := [[1, 0, 0, 4], [0, 1, 0, 5], [0, 0, 1, 6], [0, 0, 0, 1]] }

/-- A two-frame manifest with fixed intrinsics and no split lists. -/
def metaI : Meta :=
  { frames := [frameA "images/f0.png", frameB]
    flX := some 100, flY := some 100, cX := some 50, cY := some 50
    h := some 100, w := some 100, k1 := some 0 }

/-- The contents of the configured indices file: frame 0 assigned to `val`,
frame 1 to `train`. -/
def idxMap : List (Str × Str) :=
  [(str "images/f0.png", str "val"), (str "images/f1.png", str "train")]

/-- A filesystem carrying the indices file `idx.json` with `idxMap`. -/
def fsI : Fs :=
  { fileExists := fun _ => true
    imageSize := fun _ => (100, 100)
    indicesContent := fun p => if p = str "idx.json" then some idxMap else none }

/-- A config supplying the indices file, fraction one half, no auto scale. -/
def cfgI : Config :=
  { downscaleFactor := some 1, autoScalePoses := false
    trainSplitFraction := 1/2, indicesFile := some (str "idx.json") }

/-- The parser outputs on `metaI` under `cfgI` for split `val`. -/
def oI : Outputs :=
  { imageFilenames := [str "d/images/f1.png"]
    cameras :=
      { fx := IntrinVal.fixed 100, fy := IntrinVal.fixed 100
        cx := IntrinVal.fixed 50, cy := IntrinVal.fixed 50
        height := IntrinVal.fixed 100, width := IntrinVal.fixed 100
        distortionParams := IntrinVal.fixed ⟨0, 0, 0, 0, 0, 0⟩
        cameraToWorlds := [[[1, 0, 0, 4], [0, 1, 0, 5], [0, 0, 1, 6]]]
        rescaleFactor := 1 }
    maskFilenames := none
    depthFilenames := none
    dataparserScale := 1
    dataparserTransform := [[1, 0, 0, 0], [0, 1, 0, 0], [0, 0, 1, 0], [0, 0, 0, 1]] }

/-- C1: the indices-file block does compute the mapping restricted to the
requested split (here `[0]` for `val`), but the following
`if f"SPLIT_filenames" / elif / else` chain (line 240 opens a plain `if`)
unconditionally overwrites `indices`, so on a manifest with no
`{split}_filenames` lists the parser returns the fractional-split result
`[1]` instead: the configured indices file never determines the final index
set. -/
theorem C1_indices_file_dead_store :
    indicesFileBlock idxMap dirA (str "val")
      [str "d/images/f0.png", str "d/images/f1.png"] = Except.ok [0] ∧
    generateDataparserOutputs idOrient fsI cfgI metaI dirA (str "val") =
      Except.ok oI ∧
    oI.imageFilenames = [str "d/images/f1.png"] := by
  with_unfolding_all decide

/-- Splitting a list that contains a separator yields at least two chunks. -/
theorem two_le_splitOnP_length {α : Type} (p : α → Bool) :
    ∀ xs : List α, (∃ x ∈ xs, p x) → 2 ≤ (xs.splitOnP p).length := by
  intro xs
  induction xs with
  | nil => rintro ⟨x, hx, _⟩; exact absurd hx (by simp)
  | cons c t ih =>
    rintro ⟨x, hx, hp⟩
    rw [List.splitOnP_cons]
    by_cases hc : p c
    · rw [if_pos hc]
      have := List.splitOnP_ne_nil p t
      have : 1 ≤ (t.splitOnP p).length := by
        cases hcl : t.splitOnP p with
        | nil => exact absurd hcl this
        | cons a l => simp
      simp only [List.length_cons]
      omega
    · rw [if_neg hc]
      have hx' : x ∈ t := by
        rcases List.mem_cons.mp hx with rfl | h
        · exact absurd hp hc
        · exact h
      have := ih ⟨x, hx', hp⟩
      rw [List.length_modifyHead]
      exact this

/-- `getLastD` ignores a head modification on a list with two or more
elements. -/
theorem getLastD_modifyHead {α : Type} (f : α → α) (l : List α) (d : α)
    (h2 : 2 ≤ l.length) : (l.modifyHead f).getLastD d = l.getLastD d := by
  cases l with
  | nil => simp at h2
  | cons a t =>
    cases t with
    | nil => simp at h2
    | cons b u => simp [List.getLastD_cons]

/-- The last chunk of splitting `a ++ sep :: b` on `sep` is the last chunk
of splitting `b`; in particular it is `b` itself when `b` is free of the
separator. -/
theorem getLastD_splitOn_append (sep : Char) (b : Str) (hb : sep ∉ b) :
    ∀ a : Str, ((a ++ sep :: b).splitOn sep).getLastD [] = b := by
  have hbase : (b.splitOn sep).getLastD [] = b := by
    unfold List.splitOn
    rw [List.splitOnP_eq_single]
    · rfl
    · intro x hx
      simp only [beq_iff_eq]
      intro hxe
      exact hb (hxe ▸ hx)
  intro a
  induction a with
  | nil =>
    unfold List.splitOn
    rw [List.nil_append, List.splitOnP_cons, if_pos (by simp)]
    have hne := List.splitOnP_ne_nil (fun x => x == sep) b
    cases hcl : List.splitOnP (fun x => x == sep) b with
    | nil => exact absurd hcl hne
    | cons c l =>
      rw [List.getLastD_cons]
      have : (b.splitOn sep).getLastD [] = b := hbase
      unfold List.splitOn at this
      rw [hcl] at this
      cases l with
      | nil => simpa using this
      | cons e u => simpa [List.getLastD_cons] using this
  | cons c t ih =>
    unfold List.splitOn
    rw [List.cons_append, List.splitOnP_cons]
    by_cases hc : c = sep
    · rw [if_pos (by simp [hc])]
      have hne := List.splitOnP_ne_nil (fun x => x == sep) (t ++ sep :: b)
      cases hcl : List.splitOnP (fun x => x == sep) (t ++ sep :: b) with
      | nil => exact absurd hcl hne
      | cons e l =>
        rw [List.getLastD_cons]
        have h' := ih
        unfold List.splitOn at h'
        rw [hcl] at h'
        cases l with
        | nil => simpa using h'
        | cons g u => simpa [List.getLastD_cons] using h'
    · rw [if_neg (by simp [hc])]
      have h2 : 2 ≤ (List.splitOnP (fun x => x == sep) (t ++ sep :: b)).length :=
        two_le_splitOnP_length _ _ ⟨sep, by simp, by simp⟩
      rw [getLastD_modifyHead _ _ _ h2]
      have h' := ih
      unfold List.splitOn at h'
      exact h'

/-- The final path component of a join whose second argument is
slash-free. -/
theorem pathName_pathJoin (parent nm : Str) (h : '/' ∉ nm) :
    pathName (pathJoin parent nm) = nm := by
  unfold pathName pathParts pathJoin
  exact getLastD_splitOn_append '/' nm h parent

/-- The suffix of every file the evaluation loop writes is `.json` (the
assert of eval.py line 65 always passes when the stem and experiment suffix
are slash-free). -/
theorem pathSuffix_outPath (cmd : ComputePSNR) (split : Str)
    (hstem : '/' ∉ pathStem cmd.loadCkpt) (hsuf : '/' ∉ cmd.experimentSuffix)
    (hsplit : '/' ∉ split) :
    pathSuffix (outPathOf cmd split) = str ".json" := by
  have hslash : '/' ∉ outNameOf cmd split := by
    intro hmem
    unfold outNameOf at hmem
    simp only [List.mem_append] at hmem
    rcases hmem with ((((h | h) | h) | h) | h) | h
    · exact hstem h
    · exact absurd h (by decide)
    · exact hsplit h
    · exact absurd h (by decide)
    · exact hsuf h
    · exact absurd h (by decide)
  unfold pathSuffix outPathOf
  rw [pathName_pathJoin _ _ hslash]
  have hsplitname : outNameOf cmd split =
      (pathStem cmd.loadCkpt ++ str "_metrics_" ++ split ++ str "_"
        ++ cmd.experimentSuffix ++ str "_strictbox") ++ '.' :: str "json" := by
    unfold outNameOf
    have hlit : str "_strictbox.json" = str "_strictbox" ++ '.' :: str "json" := by decide
    rw [hlit]
    simp [List.append_assoc]
  rw [hsplitname]
  have hlast := getLastD_splitOn_append '.' (str "json") (by decide)
    (pathStem cmd.loadCkpt ++ str "_metrics_" ++ split ++ str "_"
      ++ cmd.experimentSuffix ++ str "_strictbox")
  have hlen : 2 ≤ (((pathStem cmd.loadCkpt ++ str "_metrics_" ++ split ++ str "_"
      ++ cmd.experimentSuffix ++ str "_strictbox") ++ '.' :: str "json").splitOn '.').length := by
    unfold List.splitOn
    exact two_le_splitOnP_length _ _ ⟨'.', by simp, by simp⟩
  rw [if_neg (by omega), hlast]
  decide

/-- No written path is the default `output.json` (it is strictly longer). -/
theorem outPathOf_ne_default (cmd : ComputePSNR) (split : Str) :
    outPathOf cmd split ≠ str "output.json" := by
  intro hc
  have hlen := congrArg List.length hc
  simp only [outPathOf, outNameOf, pathJoin, List.length_append,
    List.length_cons] at hlen
  have h1 : (str "_metrics_").length = 9 := by decide
  have h2 : (str "_strictbox.json").length = 15 := by decide
  have h3 : (str "_").length = 1 := by decide
  have h4 : (str "output.json").length = 11 := by decide
  omega

/-- An iteration whose metric computation succeeds writes the split's JSON
and leaves `metrics_dict` bound. -/
theorem evalIteration_ok (env : EvalEnv) (cmd : ComputePSNR) (split : Str)
    (mdBound : Bool) (step : ℕ) (seqv : JVal) (md : List (Str × JVal))
    (hsuffix : pathSuffix (outPathOf cmd split) = str ".json")
    (hstep : getStepFromCkptPath cmd.loadCkpt = Except.ok step)
    (hseq : seqStep env.experimentName = Except.ok seqv)
    (hm : env.metrics split = Except.ok md) :
    evalIteration env cmd split mdBound = Except.ok (outPathOf cmd split,
      benchBase env cmd step seqv ++ md ++ [(str "scene_diverged", JVal.jbool false)],
      true) := by
  simp only [evalIteration]
  rw [if_neg (by rw [hsuffix]; simp), hstep, hseq, hm]
  rfl

/-- An iteration whose metric computation raises `SceneDiverged` still
writes the split's JSON, with `scene_diverged: true` and no metric entries,
and leaves `metrics_dict` as it was. -/
theorem evalIteration_diverged (env : EvalEnv) (cmd : ComputePSNR) (split : Str)
    (mdBound : Bool) (step : ℕ) (seqv : JVal)
    (hsuffix : pathSuffix (outPathOf cmd split) = str ".json")
    (hstep : getStepFromCkptPath cmd.loadCkpt = Except.ok step)
    (hseq : seqStep env.experimentName = Except.ok seqv)
    (hm : env.metrics split = Except.error ()) :
    evalIteration env cmd split mdBound = Except.ok (outPathOf cmd split,
      benchBase env cmd step seqv ++ [(str "scene_diverged", JVal.jbool true)],
      mdBound) := by
  simp only [evalIteration]
  rw [if_neg (by rw [hsuffix]; simp), hstep, hseq, hm]
  rfl

/-- C8: when metric computation succeeds for both splits, `ComputePSNR.main`
evaluates exactly the splits `val` then `test`, writes for each one JSON
file at the checkpoint's parent directory under a name built from the
checkpoint stem, the split and the experiment suffix, never writes the
configured default `output.json`, and each written JSON contains the keys
`experiment_name`, `step`, `sequence_size`, `method_name`,
`checkpoint_path` and `scene_diverged`. -/
theorem C8_eval_two_splits (env : EvalEnv) (cmd : ComputePSNR)
    (step : ℕ) (seqv : JVal) (mdv mdt : List (Str × JVal))
    (hstem : '/' ∉ pathStem cmd.loadCkpt) (hsuf : '/' ∉ cmd.experimentSuffix)
    (hstep : getStepFromCkptPath cmd.loadCkpt = Except.ok step)
    (hseq : seqStep env.experimentName = Except.ok seqv)
    (hmv : env.metrics (str "val") = Except.ok mdv)
    (hmt : env.metrics (str "test") = Except.ok mdt) :
    computePSNRMain env cmd =
      ([(outPathOf cmd (str "val"),
          benchBase env cmd step seqv ++ mdv ++ [(str "scene_diverged", JVal.jbool false)]),
        (outPathOf cmd (str "test"),
          benchBase env cmd step seqv ++ mdt ++ [(str "scene_diverged", JVal.jbool false)])],
       none) ∧
    (∀ w ∈ (computePSNRMain env cmd).1, w.1 ≠ str "output.json") ∧
    (∀ w ∈ (computePSNRMain env cmd).1,
      ∀ k ∈ [str "experiment_name", str "step", str "sequence_size",
             str "method_name", str "checkpoint_path", str "scene_diverged"],
        ∃ v, (k, v) ∈ w.2) := by
  have hsv := pathSuffix_outPath cmd (str "val") hstem hsuf (by decide)
  have hst := pathSuffix_outPath cmd (str "test") hstem hsuf (by decide)
  have hiv := evalIteration_ok env cmd (str "val") false step seqv mdv hsv hstep hseq hmv
  have hit := evalIteration_ok env cmd (str "test") false step seqv mdt hst hstep hseq hmt
  have hmain : computePSNRMain env cmd =
      ([(outPathOf cmd (str "val"),
          benchBase env cmd step seqv ++ mdv ++ [(str "scene_diverged", JVal.jbool false)]),
        (outPathOf cmd (str "test"),
          benchBase env cmd step seqv ++ mdt ++ [(str "scene_diverged", JVal.jbool false)])],
       none) := by
    simp only [computePSNRMain, evalLoop, hiv, hit]
    rfl
  refine ⟨hmain, ?_, ?_⟩
  · intro w hw
    rw [hmain] at hw
    simp only [List.mem_cons, List.not_mem_nil, or_false] at hw
    rcases hw with rfl | rfl
    · exact outPathOf_ne_default cmd (str "val")
    · exact outPathOf_ne_default cmd (str "test")
  · intro w hw k hk
    rw [hmain] at hw
    simp only [List.mem_cons, List.not_mem_nil, or_false] at hw
    have hkeys : ∀ md : List (Str × JVal), ∀ k2 ∈ [str "experiment_name", str "step",
        str "sequence_size", str "method_name", str "checkpoint_path",
        str "scene_diverged"],
        ∃ v, (k2, v) ∈ benchBase env cmd step seqv ++ md ++
          [(str "scene_diverged", JVal.jbool false)] := by
      intro md k2 hk2
      simp only [List.mem_cons, List.not_mem_nil, or_false] at hk2
      rcases hk2 with rfl | rfl | rfl | rfl | rfl | rfl
      · exact ⟨JVal.jstr env.experimentName, by simp [benchBase]⟩
      · exact ⟨JVal.jint step, by simp [benchBase]⟩
      · exact ⟨seqv, by simp [benchBase]⟩
      · exact ⟨JVal.jstr env.methodName, by simp [benchBase]⟩
      · exact ⟨JVal.jstr cmd.loadCkpt, by simp [benchBase]⟩
      · exact ⟨JVal.jbool false, by simp⟩
    rcases hw with rfl | rfl
    · exact hkeys mdv k hk
    · exact hkeys mdt k hk

/-- The command line of the concrete evaluation runs. -/
def cmdW : ComputePSNR :=
  { loadConfig := str "cfg.yml"
    experimentSuffix := str "exp"
    loadCkpt := str "out/step-000100.ckpt" }

/-- An environment in which both splits' metrics succeed with no entries. -/
def envW : EvalEnv :=
  { experimentName := str "run_n_5-ab"
    methodName := str "nerfacto"
    metrics := fun _ => Except.ok [] }

/-- Witness for C8 at a concrete run. -/
theorem C8_eval_two_splits_witness :
    computePSNRMain envW cmdW =
      ([(outPathOf cmdW (str "val"),
          benchBase envW cmdW 100 (JVal.jint 5) ++ [] ++ [(str "scene_diverged", JVal.jbool false)]),
        (outPathOf cmdW (str "test"),
          benchBase envW cmdW 100 (JVal.jint 5) ++ [] ++ [(str "scene_diverged", JVal.jbool false)])],
       none) ∧
    (∀ w ∈ (computePSNRMain envW cmdW).1, w.1 ≠ str "output.json") ∧
    (∀ w ∈ (computePSNRMain envW cmdW).1,
      ∀ k ∈ [str "experiment_name", str "step", str "sequence_size",
             str "method_name", str "checkpoint_path", str "scene_diverged"],
        ∃ v, (k, v) ∈ w.2) :=
  C8_eval_two_splits envW cmdW 100 (JVal.jint 5) [] []
    (by with_unfolding_all decide)
    (by with_unfolding_all decide)
    (by with_unfolding_all decide)
    (by with_unfolding_all decide)
    rfl rfl

/-- C10: when a split's metric computation raises `SceneDiverged`, its JSON
is still written with `scene_diverged: true` and no metric entries, but the
teardown's `del metrics_dict` then raises `NameError` (the name is unbound
in that iteration), so any remaining split is not evaluated. -/
theorem C10_scene_diverged_name_error (env : EvalEnv) (cmd : ComputePSNR)
    (step : ℕ) (seqv : JVal) (mdv : List (Str × JVal))
    (hstem : '/' ∉ pathStem cmd.loadCkpt) (hsuf : '/' ∉ cmd.experimentSuffix)
    (hstep : getStepFromCkptPath cmd.loadCkpt = Except.ok step)
    (hseq : seqStep env.experimentName = Except.ok seqv) :
    (env.metrics (str "val") = Except.error () →
      computePSNRMain env cmd =
        ([(outPathOf cmd (str "val"),
            benchBase env cmd step seqv ++ [(str "scene_diverged", JVal.jbool true)])],
         some EErr.nameError)) ∧
    (env.metrics (str "val") = Except.ok mdv →
     env.metrics (str "test") = Except.error () →
      computePSNRMain env cmd =
        ([(outPathOf cmd (str "val"),
            benchBase env cmd step seqv ++ mdv ++ [(str "scene_diverged", JVal.jbool false)]),
          (outPathOf cmd (str "test"),
            benchBase env cmd step seqv ++ [(str "scene_diverged", JVal.jbool true)])],
         some EErr.nameError)) := by
  have hsv := pathSuffix_outPath cmd (str "val") hstem hsuf (by decide)
  have hst := pathSuffix_outPath cmd (str "test") hstem hsuf (by decide)
  constructor
  · intro hdv
    have hiv := evalIteration_diverged env cmd (str "val") false step seqv hsv hstep hseq hdv
    simp only [computePSNRMain, evalLoop, hiv]
    rfl
  · intro hov hdt
    have hiv := evalIteration_ok env cmd (str "val") false step seqv mdv hsv hstep hseq hov
    have hit := evalIteration_diverged env cmd (str "test") false step seqv hst hstep hseq hdt
    simp only [computePSNRMain, evalLoop, hiv, hit]
    rfl

/-- An environment in which every split's metric computation raises
`SceneDiverged`. -/
def envD : EvalEnv :=
  { experimentName := str "run"
    methodName := str "nerfacto"
    metrics := fun _ => Except.error () }

/-- Witness for C10 at a concrete run: the `val` split diverges, its JSON
is written with the divergence flag, and the loop dies with `NameError`
before evaluating `test`. -/
theorem C10_scene_diverged_name_error_witness :
    computePSNRMain envD cmdW =
      ([(outPathOf cmdW (str "val"),
          benchBase envD cmdW 100 JVal.jnull ++ [(str "scene_diverged", JVal.jbool true)])],
       some EErr.nameError) :=
  (C10_scene_diverged_name_error envD cmdW 100 JVal.jnull []
    (by with_unfolding_all decide)
    (by with_unfolding_all decide)
    (by with_unfolding_all decide)
    (by with_unfolding_all decide)).1 rfl
